import Mathlib

/-!
Verification of the Transaction Reconciliation & Risk Analysis Engine
(backend of the clearledger bookkeeping service).

The Python sources are embedded shallowly:

* `backend/services/duplicate_detector.py` → `parse_date`, `get_amount`,
  `calculate_similarity`, `find_duplicates`, `batch_check_duplicates`
* `backend/services/confidence_scorer.py`  → `analyze_entry`
* `backend/services/categorizer.py`        → `categorize`
* `backend/main.py` (ledger helpers)       → `recalculate_remaining_balances`
* `backend/services/risk_detector.py`      → `detect_subscriptions`,
  `analyze_transactions`

Python floats are modelled as exact rationals (ℚ), Python `datetime`
values as proleptic-Gregorian day ordinals (ℤ, days since 1970-01-01,
with the current wall-clock time passed explicitly where the source
calls `datetime.now()`).  Fallible code returns `Option`/`Except`;
a raised Python exception is an `Except.error`.
-/

set_option maxRecDepth 4096

/-! ## Calendar dates

`PDate` models a Python `datetime.date` (the time-of-day of the
`datetime` objects produced by `strptime` on pure date formats is
always midnight and is not represented). -/

structure PDate where
  year : Nat
  month : Nat
  day : Nat
deriving DecidableEq, Repr

/-- Gregorian leap-year test, as in `datetime`. -/
def isLeap (y : Nat) : Bool :=
  y % 4 == 0 && (y % 100 != 0 || y % 400 == 0)

/-- Number of days of month `m` of year `y`, as in `datetime`. -/
def daysInMonth (y m : Nat) : Nat :=
  if m = 1 then 31
  else if m = 2 then (if isLeap y then 29 else 28)
  else if m = 3 then 31
  else if m = 4 then 30
  else if m = 5 then 31
  else if m = 6 then 30
  else if m = 7 then 31
  else if m = 8 then 31
  else if m = 9 then 30
  else if m = 10 then 31
  else if m = 11 then 30
  else if m = 12 then 31
  else 0

/-- The values `datetime(year, month, day)` accepts without raising
(`MINYEAR = 1`, `MAXYEAR = 9999`). -/
def dateOK (y m d : Nat) : Bool :=
  1 ≤ y && y ≤ 9999 && 1 ≤ m && m ≤ 12 && 1 ≤ d && d ≤ daysInMonth y m

/-- Build a date, failing exactly when `datetime(...)` would raise. -/
def mkDate (y m d : Nat) : Option PDate :=
  if dateOK y m d then some ⟨y, m, d⟩ else none

/-- Day ordinal of a date: days since 1970-01-01 in the proleptic
Gregorian calendar (the civil-from-days algorithm).  Differences of
ordinals equal `(a - b).days` on the corresponding midnight
`datetime` values. -/
def toOrd (d : PDate) : Int :=
  let y' : Nat := d.year - (if d.month ≤ 2 then 1 else 0)
  let era : Nat := y' / 400
  let yoe : Nat := y' % 400
  let mp : Nat := (d.month + 9) % 12
  let doy : Nat := (153 * mp + 2) / 5 + d.day - 1
  let doe : Nat := yoe * 365 + yoe / 4 - yoe / 100 + doy
  (era * 146097 + doe : Int) - 719468

/-- Python `date.weekday()`: Monday = 0 … Sunday = 6
(1970-01-01 was a Thursday). -/
def pyWeekday (d : PDate) : Int :=
  (toOrd d + 3) % 7

/-! ## Text and sorting helpers

Python string operations are modelled over `List Char` (Lean's
`String` library functions are not definitionally reducible):
`str.lower` on the ASCII range, `str.strip`, and Python's stable
`sorted`/`list.sort` as an insertion sort (a stable sort is
extensionally determined, so any stable model is exact). -/

/-- Python whitespace (`str.strip` / regex `\s`, ASCII range). -/
def isPyWs (c : Char) : Bool :=
  c = ' ' ∨ c = '\t' ∨ c = '\n' ∨ c = '\r' ∨ c = '\x0b' ∨ c = '\x0c'

/-- `str.strip()`. -/
def trimL (l : List Char) : List Char :=
  ((l.dropWhile isPyWs).reverse.dropWhile isPyWs).reverse

/-- `str.lower()` (the texts involved are ASCII). -/
def toLowerL (l : List Char) : List Char :=
  l.map Char.toLower

/-- Insert `a` before the first element `b` with `le a b`. -/
def insertLE (le : α → α → Bool) (a : α) : List α → List α
  | [] => [a]
  | b :: l => if le a b then a :: b :: l else b :: insertLE le a l

/-- Stable sort by insertion: an element is placed before the equal
keys that follow it, as Python's stable `sorted` does (with
`le a b := key a ≤ key b`, or the reversed comparison for
`reverse=True`). -/
def sortLE (le : α → α → Bool) (l : List α) : List α :=
  l.foldr (insertLE le) []

/-! ## `DuplicateDetector._parse_date`

`_parse_date` tries a fixed list of `strptime` formats in order and
finally `datetime.fromisoformat`.  Each format is modelled exactly on
the `_strptime` regular expressions: `%Y` is exactly four digits,
`%d`/`%m` are one or two digits in range (no `0`/`00`), the whole
string must be consumed, and the parsed values must survive
`datetime(...)` construction (`mkDate`). -/

def natOfDigits (l : List Char) : Nat :=
  l.foldl (fun a c => 10 * a + (c.toNat - '0'.toNat)) 0

/-- The language of `%Y`: exactly four digits. -/
def compY (l : List Char) : Option Nat :=
  if l.length = 4 ∧ l.all (·.isDigit) then some (natOfDigits l) else none

/-- The language of `%m` (`hi = 12`) and `%d` (`hi = 31`): one or two
digits with value in `[1, hi]`. -/
def compN (hi : Nat) (l : List Char) : Option Nat :=
  if (l.length = 1 ∨ l.length = 2) ∧ l.all (·.isDigit) ∧
      1 ≤ natOfDigits l ∧ natOfDigits l ≤ hi then
    some (natOfDigits l)
  else none

def compM : List Char → Option Nat := compN 12
def compD : List Char → Option Nat := compN 31

/-- Split a character list at every occurrence of `sep` (like Python
`str.split(sep)`: `n` separators yield `n+1` groups, possibly empty). -/
def splitSep (sep : Char) : List Char → List (List Char)
  | [] => [[]]
  | c :: cs =>
    if c = sep then [] :: splitSep sep cs
    else
      match splitSep sep cs with
      | [] => [[c]]
      | g :: gs => (c :: g) :: gs

/-- A three-component date format with a one-character separator
(e.g. `%d/%m/%Y`): the separator occurs exactly twice and each group
lies in the corresponding component language. -/
def fmtSep3 (sep : Char) (p1 p2 p3 : List Char → Option Nat)
    (build : Nat → Nat → Nat → Option PDate) (l : List Char) : Option PDate :=
  match splitSep sep l with
  | [a, b, c] =>
    match p1 a, p2 b, p3 c with
    | some x, some y, some z => build x y z
    | _, _, _ => none
  | _ => none

/-- `"%Y-%m-%d"` -/
def fmtYmdDash : List Char → Option PDate :=
  fmtSep3 '-' compY compM compD (fun y m d => mkDate y m d)

/-- `"%d/%m/%Y"` -/
def fmtDmySlash : List Char → Option PDate :=
  fmtSep3 '/' compD compM compY (fun d m y => mkDate y m d)

/-- `"%m/%d/%Y"` -/
def fmtMdySlash : List Char → Option PDate :=
  fmtSep3 '/' compM compD compY (fun m d y => mkDate y m d)

/-- `"%Y/%m/%d"` -/
def fmtYmdSlash : List Char → Option PDate :=
  fmtSep3 '/' compY compM compD (fun y m d => mkDate y m d)

/-- `"%d-%m-%Y"` -/
def fmtDmyDash : List Char → Option PDate :=
  fmtSep3 '-' compD compM compY (fun d m y => mkDate y m d)

/-- `"%Y.%m.%d"` -/
def fmtYmdDot : List Char → Option PDate :=
  fmtSep3 '.' compY compM compD (fun y m d => mkDate y m d)

/-- `"%d.%m.%Y"` -/
def fmtDmyDot : List Char → Option PDate :=
  fmtSep3 '.' compD compM compY (fun d m y => mkDate y m d)

/-- Month-number token of `%m`/`%d` inside `%Y%m%d`: the regex prefers
the two-digit reading and falls back to a single digit `1-9`.  Returns
the value and the number of characters consumed. -/
def tok2 (hi : Nat) (l : List Char) : List (Nat × Nat) :=
  (match l with
   | c1 :: c2 :: _ =>
     if c1.isDigit ∧ c2.isDigit ∧ 1 ≤ natOfDigits [c1, c2] ∧ natOfDigits [c1, c2] ≤ hi then
       [(natOfDigits [c1, c2], 2)]
     else []
   | _ => []) ++
  (match l with
   | c1 :: _ =>
     if c1.isDigit ∧ c1 ≠ '0' then [(natOfDigits [c1], 1)] else []
   | _ => [])

/-- `"%Y%m%d"`.  The regex engine takes the first month/day
tokenisation in backtracking order (a later token backtracks an
earlier one only when it cannot match at all); `strptime` then
requires that this first match consume the whole string. -/
def fmtYmdCompact (l : List Char) : Option PDate :=
  if 4 ≤ l.length ∧ (l.take 4).all (·.isDigit) then
    let y := natOfDigits (l.take 4)
    let r := l.drop 4
    match (tok2 12 r).flatMap
        (fun mt => (tok2 31 (r.drop mt.2)).map
          (fun dt => (mt.1, dt.1, mt.2 + dt.2))) with
    | [] => none
    | (m, d, consumed) :: _ =>
      if consumed = r.length then mkDate y m d else none
  else none

def monthNamesFull : List (String × Nat) :=
  [("january", 1), ("february", 2), ("march", 3), ("april", 4),
   ("may", 5), ("june", 6), ("july", 7), ("august", 8),
   ("september", 9), ("october", 10), ("november", 11), ("december", 12)]

def monthNamesAbbr : List (String × Nat) :=
  [("jan", 1), ("feb", 2), ("mar", 3), ("apr", 4), ("may", 5), ("jun", 6),
   ("jul", 7), ("aug", 8), ("sep", 9), ("oct", 10), ("nov", 11), ("dec", 12)]

/-- Match one of the month names at the start of `l`, case-insensitively
(`strptime` compiles its patterns with `re.IGNORECASE`). -/
def stripMonthName (names : List (String × Nat)) (l : List Char) :
    Option (Nat × List Char) :=
  names.foldr
    (fun (nm, v) acc =>
      if (l.take nm.length).map Char.toLower = nm.toList then
        some (v, l.drop nm.length)
      else acc)
    none

/-- A literal space in a `strptime` format matches one or more
whitespace characters. -/
def stripWs (l : List Char) : Option (List Char) :=
  match l with
  | c :: cs => if isPyWs c then some (cs.dropWhile isPyWs) else none
  | [] => none

/-- First parser in a candidate list that succeeds (regex
backtracking over the alternatives of a token). -/
def firstOk (cands : List α) (k : α → Option β) : Option β :=
  match cands with
  | [] => none
  | c :: cs =>
    match k c with
    | some b => some b
    | none => firstOk cs k

/-- A `%Y` that must end the string. -/
def yearAtEnd (l : List Char) : Option Nat := compY l

/-- `"%B %d, %Y"` / `"%b %d, %Y"` (e.g. `January 15, 2024`). -/
def fmtNameDY (names : List (String × Nat)) (l : List Char) : Option PDate :=
  match stripMonthName names l with
  | none => none
  | some (m, r1) =>
    match stripWs r1 with
    | none => none
    | some r2 =>
      firstOk (tok2 31 r2) fun (d, dc) =>
        match r2.drop dc with
        | ',' :: r3 =>
          match stripWs r3 with
          | none => none
          | some r4 =>
            match yearAtEnd r4 with
            | some y => mkDate y m d
            | none => none
        | _ => none

/-- `"%d %B %Y"` / `"%d %b %Y"` (e.g. `15 January 2024`). -/
def fmtDNameY (names : List (String × Nat)) (l : List Char) : Option PDate :=
  firstOk (tok2 31 l) fun (d, dc) =>
    match stripWs (l.drop dc) with
    | none => none
    | some r1 =>
      match stripMonthName names r1 with
      | none => none
      | some (m, r2) =>
        match stripWs r2 with
        | none => none
        | some r3 =>
          match yearAtEnd r3 with
          | some y => mkDate y m d
          | none => none

/-- The fixed format list of `_parse_date`, in source order. -/
def dateFormats : List (List Char → Option PDate) :=
  [fmtYmdDash,                -- "%Y-%m-%d"
   fmtDmySlash,               -- "%d/%m/%Y"
   fmtMdySlash,               -- "%m/%d/%Y"
   fmtYmdSlash,               -- "%Y/%m/%d"
   fmtDmyDash,                -- "%d-%m-%Y"
   fmtYmdDot,                 -- "%Y.%m.%d"
   fmtDmyDot,                 -- "%d.%m.%Y"
   fmtYmdCompact,             -- "%Y%m%d"
   fmtNameDY monthNamesFull,  -- "%B %d, %Y"
   fmtNameDY monthNamesAbbr,  -- "%b %d, %Y"
   fmtDNameY monthNamesFull,  -- "%d %B %Y"
   fmtDNameY monthNamesAbbr]  -- "%d %b %Y"

/-- Try the formats in order, returning the first successful parse. -/
def firstFormat (ps : List (List Char → Option PDate)) (l : List Char) :
    Option PDate :=
  match ps with
  | [] => none
  | p :: rest =>
    match p l with
    | some d => some d
    | none => firstFormat rest l

/-- `s.replace('Z', '+00:00')` -/
def replaceZ : List Char → List Char
  | [] => []
  | c :: cs => if c = 'Z' then '+' :: '0' :: '0' :: ':' :: '0' :: '0' :: replaceZ cs
               else c :: replaceZ cs

def twoDigits (l : List Char) : Option (Nat × List Char) :=
  match l with
  | c1 :: c2 :: rest =>
    if c1.isDigit ∧ c2.isDigit then some (natOfDigits [c1, c2], rest) else none
  | _ => none

/-- Time-of-day part accepted by `datetime.fromisoformat` (Python ≥ 3.11),
modelled for its common forms: `HH[:MM[:SS[.f{1,6}]]]` (or the basic
variant without colons), then an optional numeric utc-offset.
Validity of the clock values is checked as `fromisoformat` does. -/
def isoTimeTail (l : List Char) : Bool :=
  match twoDigits l with
  | none => false
  | some (h, r) =>
    if h ≥ 24 then false
    else
      let afterMin : List Char → Bool := fun r2 =>
        -- optional seconds, optional fraction, optional offset
        let afterSec : List Char → Bool := fun r3 =>
          let afterFrac : List Char → Bool := fun r4 =>
            match r4 with
            | [] => true
            | s :: r5 =>
              -- utc offset: (+|-)HH:MM[.. optionally :SS[.ffffff]]
              if s = '+' ∨ s = '-' then
                match twoDigits r5 with
                | none => false
                | some (_, r6) =>
                  match r6 with
                  | ':' :: r7 =>
                    match twoDigits r7 with
                    | none => false
                    | some (_, r8) => r8.isEmpty
                  | _ =>
                    match twoDigits r6 with
                    | none => false
                    | some (_, r8) => r8.isEmpty
              else false
          match r3 with
          | '.' :: r4 =>
            let frac := r4.takeWhile (·.isDigit)
            1 ≤ frac.length ∧ frac.length ≤ 6 ∧ afterFrac (r4.dropWhile (·.isDigit))
          | ',' :: r4 =>
            let frac := r4.takeWhile (·.isDigit)
            1 ≤ frac.length ∧ frac.length ≤ 6 ∧ afterFrac (r4.dropWhile (·.isDigit))
          | _ => afterFrac r3
        match r2 with
        | ':' :: r3 =>
          match twoDigits r3 with
          | none => false
          | some (s, r4) => s ≤ 59 && afterSec r4
        | _ =>
          match twoDigits r2 with
          | some (s, r4) => s ≤ 59 && afterSec r4
          | none => afterSec r2
      match r with
      | ':' :: r2 =>
        match twoDigits r2 with
        | none => false
        | some (m, r3) => m ≤ 59 && afterMin r3
      | [] => true
      | _ =>
        match twoDigits r with
        | some (m, r3) => m ≤ 59 && afterMin r3
        | none => false

/-- Date part accepted by `fromisoformat`: `YYYY-MM-DD` or `YYYYMMDD`. -/
def isoDatePart (l : List Char) : Option (PDate × List Char) :=
  match l with
  | y1 :: y2 :: y3 :: y4 :: rest =>
    if [y1, y2, y3, y4].all (·.isDigit) then
      let y := natOfDigits [y1, y2, y3, y4]
      match rest with
      | '-' :: m1 :: m2 :: '-' :: d1 :: d2 :: r =>
        if [m1, m2, d1, d2].all (·.isDigit) then
          match mkDate y (natOfDigits [m1, m2]) (natOfDigits [d1, d2]) with
          | some d => some (d, r)
          | none => none
        else none
      | m1 :: m2 :: d1 :: d2 :: r =>
        if [m1, m2, d1, d2].all (·.isDigit) then
          match mkDate y (natOfDigits [m1, m2]) (natOfDigits [d1, d2]) with
          | some d => some (d, r)
          | none => none
        else none
      | _ => none
    else none
  | _ => none

/-- Modelled from the external `datetime.fromisoformat` (after the
source's `replace('Z', '+00:00')`): a date, optionally followed by a
single separator character and a time-of-day. -/
def isoFallback (l : List Char) : Option PDate :=
  let l := replaceZ l
  match isoDatePart l with
  | none => none
  | some (d, rest) =>
    match rest with
    | [] => some d
    | _ :: t => if isoTimeTail t then some d else none

/-- `DuplicateDetector._parse_date`: empty input is `None`; otherwise
the input is stripped and the fixed format list is tried in order,
with `fromisoformat` as the final fallback; unparseable input yields
`None` rather than an exception. -/
def parse_date (s : String) : Option PDate :=
  if s = "" then none
  else
    let l := trimL s.toList
    match firstFormat dateFormats l with
    | some d => some d
    | none => isoFallback l

/-! ## `SimilarityScorer` (`DuplicateDetector._calculate_similarity`)

The vendor field is compared with `fuzzywuzzy.fuzz.ratio`. -/

/-- Modelled from the external `python-Levenshtein` backend of
`fuzzywuzzy`: edit distance with unit insertion/deletion cost and
substitution cost 2. -/
def lev2 : List Char → List Char → Nat
  | [], b => b.length
  | a, [] => a.length
  | x :: xs, y :: ys =>
    if x = y then lev2 xs ys
    else min (min (lev2 xs (y :: ys) + 1) (lev2 (x :: xs) ys + 1))
             (lev2 xs ys + 2)
termination_by a b => a.length + b.length

/-- Modelled from the external `fuzz.ratio(a, b)`:
`round(100 * (|a| + |b| - distance) / (|a| + |b|))` as an integer score
in `[0, 100]` (`100` on equal strings, which is the only case the
theorems below rely on). -/
def fuzzScore (a b : List Char) : ℤ :=
  let la := a.length
  let lb := b.length
  if la + lb = 0 then 100
  else round ((100 : ℚ) * ((la + lb - lev2 a b : ℤ) / (la + lb)))

/-- A transaction record as the duplicate detector reads it: a Python
dict accessed with `.get`, so every field may be absent (`none` also
covers a key stored with value `None`, which `.get` returns as well). -/
structure Entry where
  id : Option Int := none
  vendor : Option String := none
  merchant : Option String := none
  description : Option String := none
  income : Option ℚ := none
  expense : Option ℚ := none
  amount : Option ℚ := none
  date : Option String := none
  category : Option String := none
deriving DecidableEq, Repr

/-- Python `a or b` on optional numbers: the first operand unless it is
falsy (`None` or `0`), otherwise the second. -/
def pyOrQ (a b : Option ℚ) : Option ℚ :=
  match a with
  | some x => if x ≠ 0 then some x else b
  | none => b

/-- `DuplicateDetector._get_amount`:
`entry.get("income") or entry.get("expense") or entry.get("amount")`,
`None` if the resulting value is `None` (the values are numeric, so the
`float(...)` conversion is the identity). -/
def get_amount (e : Entry) : Option ℚ :=
  pyOrQ (pyOrQ e.income e.expense) e.amount

/-- The first truthy (present and non-empty) string in the list, or
`""`: Python `a or b or ... or ""`. -/
def firstTruthyS : List (Option String) → String
  | [] => ""
  | some s :: rest => if s ≠ "" then s else firstTruthyS rest
  | none :: rest => firstTruthyS rest

/-- The amount component of the similarity breakdown. -/
def amountScore (a1 a2 : Option ℚ) : ℚ :=
  match a1, a2 with
  | some x, some y =>
    if x = y then 100
    else if x ≠ 0 ∧ y ≠ 0 then
      let d := |x - y| / max |x| |y| * 100
      if d ≤ 1 then 100
      else if d ≤ 5 then 90
      else if d ≤ 10 then 70
      else max 0 (100 - d * (3/2))
    else 0
  | _, _ => 0

/-- The date component of the similarity breakdown. -/
def dateScore (d1 d2 : Option PDate) : ℚ :=
  match d1, d2 with
  | some a, some b =>
    let g := |toOrd a - toOrd b|
    if g = 0 then 100
    else if g = 1 then 85
    else if g = 2 then 70
    else if g = 3 then 50
    else max 0 (100 - (g : ℚ) * 15)
  | _, _ => 0

/-- The per-field similarity breakdown (`scores` dict). -/
structure SimDetails where
  amount : ℚ
  vendor : ℚ
  date : ℚ
  category : ℚ
deriving DecidableEq, Repr

structure Similarity where
  overall : ℚ
  details : SimDetails
deriving DecidableEq, Repr

/-- The processed vendor string of an entry:
`str(get("vendor") or get("merchant") or get("description") or "").strip().lower()`. -/
def vendorText (e : Entry) : List Char :=
  toLowerL (trimL (firstTruthyS [e.vendor, e.merchant, e.description]).toList)

/-- The processed category string: `str(get("category", "")).strip().lower()`. -/
def categoryText (e : Entry) : List Char :=
  toLowerL (trimL (e.category.getD "").toList)

/-- `DuplicateDetector._calculate_similarity`. -/
def calculate_similarity (e1 e2 : Entry) : Similarity :=
  let sAmount := amountScore (get_amount e1) (get_amount e2)
  let v1 := vendorText e1
  let v2 := vendorText e2
  let sVendor : ℚ := if v1 ≠ [] ∧ v2 ≠ [] then (fuzzScore v1 v2 : ℚ) else 0
  let sDate := dateScore (parse_date (e1.date.getD "")) (parse_date (e2.date.getD ""))
  let c1 := categoryText e1
  let c2 := categoryText e2
  let sCategory : ℚ := if c1 ≠ [] ∧ c2 ≠ [] then (if c1 = c2 then 100 else 0) else 0
  let details : SimDetails := ⟨sAmount, sVendor, sDate, sCategory⟩
  -- overall = sum of scores[f] * weights[f], weights 0.40/0.40/0.15/0.05
  { overall := sAmount * (40/100) + sVendor * (40/100) +
               sDate * (15/100) + sCategory * (5/100),
    details := details }

/-- One element of the list `find_duplicates` returns. -/
structure DupMatch where
  entry_id : Option Int
  entry : Entry
  similarity_score : ℚ
  matching_fields : SimDetails
deriving DecidableEq, Repr

/-- `DuplicateDetector.find_duplicates`: keep the comparisons scoring at
least `threshold`, then sort by score, highest first (`list.sort` with
`reverse=True` is a stable descending sort, as is `mergeSort` on the
reversed comparison). -/
def find_duplicates (newE : Entry) (existing : List Entry) (threshold : ℚ) :
    List DupMatch :=
  let dups := existing.filterMap fun ex =>
    let sim := calculate_similarity newE ex
    if threshold ≤ sim.overall then
      some ⟨ex.id, ex, sim.overall, sim.details⟩
    else none
  sortLE (fun a b => decide (b.similarity_score ≤ a.similarity_score)) dups

/-- `DuplicateDetector.batch_check_duplicates`: each entry is compared
against all the others; entries with a non-empty duplicate list are
collected into a map keyed by their id (the entries of this system
always carry an `id` key, so `entry.get("id", i)` is the stored id). -/
def batch_check_duplicates (entries : List Entry) (threshold : ℚ) :
    List (Option Int × List DupMatch) :=
  entries.enum.foldl
    (fun acc (p : Nat × Entry) =>
      let others := entries.take p.1 ++ entries.drop (p.1 + 1)
      let dups := find_duplicates p.2 others threshold
      if dups ≠ [] then acc ++ [(p.2.id, dups)] else acc)
    []

/-! ## `ConfidenceScorer.analyze_entry`

`datetime.now()` is passed explicitly as the day ordinal `now`; the
time of day within the current date affects neither the strict
future comparison against a midnight timestamp nor the
`timedelta.days` value, so the ordinal determines both checks. -/

/-- The entry as `analyze_entry` reads it (a dict accessed with
`.get`, every field defaulted). -/
structure CEntry where
  date : Option String := none
  amount : Option ℚ := none
  vendor : Option String := none
  confidence : List (String × ℚ) := []
deriving DecidableEq, Repr

structure CAnalysis where
  flags : List String
  warnings : List String
  overall_confidence : ℚ
  needs_review : Bool
deriving DecidableEq, Repr

/-- `ConfidenceScorer._check_date`. -/
def check_date (now : Int) (s : String) : Option String :=
  if s = "" then some "⚠️ Date is missing"
  else
    match fmtYmdDash s.toList with
    | some d =>
      if toOrd d > now then some "⚠️ Date is in the future. Please verify."
      else if now - toOrd d > 730 then
        some "⚠️ Date is more than 2 years old. Please verify."
      else none
    | none => some "❌ Date format is invalid. Expected YYYY-MM-DD."

/-- `ConfidenceScorer._check_amount`. -/
def check_amount (a : ℚ) : Option String :=
  if a = 0 then some "❌ Amount is zero or missing"
  else if a < 0 then some "❌ Amount is negative"
  else if a > 1000000 then some "⚠️ Amount seems unusually high. Please verify."
  else none

/-- `ConfidenceScorer._check_vendor`.  The regex class `[^a-zA-Z0-9\s]`
counts characters that are neither ASCII alphanumeric nor whitespace. -/
def check_vendor (v : String) : Option String :=
  if v = "" ∨ toLowerL v.toList = "unknown".toList then
    some "⚠️ Vendor name is unknown or missing"
  else
    let special := (v.toList.filter fun c => ¬ (c.isAlphanum ∨ c.isWhitespace)).length
    if (special : ℚ) > (v.toList.length : ℚ) * (3/10) then
      some "⚠️ Vendor name contains unusual characters. OCR may have failed."
    else if v.toList.length > 50 then
      some "⚠️ Vendor name is unusually long. Please verify."
    else none

/-- Python `str.capitalize()`. -/
def pyCapitalize (s : String) : String :=
  match s.toList with
  | [] => ""
  | c :: cs => String.mk (c.toUpper :: cs.map Char.toLower)

/-- Round half to even, as Python `round` and `format` do. -/
def roundHalfEven (q : ℚ) : ℤ :=
  let f := ⌊q⌋
  let r := q - f
  if r < 1/2 then f
  else if r > 1/2 then f + 1
  else if f % 2 = 0 then f else f + 1

/-- Python `f"{q:.0%}"`. -/
def pctFmt (q : ℚ) : String :=
  toString (roundHalfEven (q * 100)) ++ "%"

/-- `ConfidenceScorer.analyze_entry`. -/
def analyze_entry (now : Int) (e : CEntry) : CAnalysis :=
  let flags := [check_date now (e.date.getD ""),
                check_amount (e.amount.getD 0),
                check_vendor (e.vendor.getD "")].filterMap id
  let warnings := e.confidence.filterMap fun fs =>
    if fs.2 < 1/2 then
      some (pyCapitalize fs.1 ++ " has low confidence (" ++ pctFmt fs.2 ++ "). Please review.")
    else none
  let overall : ℚ :=
    if e.confidence ≠ [] then
      (e.confidence.map (·.2)).sum / e.confidence.length
    else 0
  { flags := flags
    warnings := warnings
    overall_confidence := overall
    needs_review := decide (flags ≠ []) || decide (overall < 7/10) ||
                    decide (e.amount.getD 0 = 0) }

/-! ## `Categorizer.categorize` -/

/-- Does `needle` start `hay`? -/
def startsWithL : List Char → List Char → Bool
  | [], _ => true
  | _ :: _, [] => false
  | a :: as, b :: bs => a == b && startsWithL as bs

/-- Python `needle in hay` on strings: contiguous-substring test. -/
def containsSub (hay needle : List Char) : Bool :=
  match hay with
  | [] => needle.isEmpty
  | _ :: t => startsWithL needle hay || containsSub t needle

/-- `backend/config.py` `CATEGORY_KEYWORDS`, verbatim (including the
repeated `"restaurant"`, `"petrol"` and `"bill"` entries, which are
counted twice by the scoring loop). -/
def CATEGORY_KEYWORDS : List (String × List String) :=
  [("Food",
    ["kfc", "mcdonald", "restaurant", "cafe", "food", "burger", "pizza", "restaurant",
     "khana", "khaane", "nashta", "dinner", "lunch", "biryani", "karahi"]),
   ("Fuel",
    ["pso", "shell", "total", "attock", "petrol", "fuel", "gas",
     "petrol", "diesel"]),
   ("Transport",
    ["uber", "careem", "taxi", "transport", "bus", "metro", "rickshaw", "bykea", "indriver",
     "sawari", "gaari"]),
   ("Utilities",
    ["electricity", "gas", "water", "internet", "phone", "bill", "wifi", "ptcl", "nayatel",
     "bijli", "pani", "bill"]),
   ("Rent",
    ["rent", "lease", "housing",
     "kiraya", "makaan"]),
   ("Office",
    ["stationery", "office", "supplies", "printing",
     "daftar", "kaam"]),
   ("Other", [])]

/-- One keyword's contribution: `+10` if it occurs in the vendor name,
else `+5` if it occurs in the combined text; `matches` counts either
kind. -/
def kwStep (vl combined : List Char) (sm : Nat × Nat) (kw : String) : Nat × Nat :=
  let k := toLowerL kw.toList
  if containsSub vl k then (sm.1 + 10, sm.2 + 1)
  else if containsSub combined k then (sm.1 + 5, sm.2 + 1)
  else sm

/-- Score one category's keyword list against the vendor text and the
combined text. -/
def kwScore (vl combined : List Char) (kws : List String) : Nat × Nat :=
  kws.foldl (kwStep vl combined) (0, 0)

/-- `combined_text = f"{vendor_lower} {notes_lower}"` (with
`notes_lower = notes.lower() if notes else ""`). -/
def combinedText (vendor notes : String) : List Char :=
  toLowerL vendor.toList ++ ' ' :: (if notes ≠ "" then toLowerL notes.toList else [])

/-- One category's table entry: skipped for `"Other"`, recorded when it
matched at least once. -/
def catStep (vl combined : List Char) (acc : List (String × Nat × Nat))
    (ck : String × List String) : List (String × Nat × Nat) :=
  if ck.1 = "Other" then acc
  else
    let sm := kwScore vl combined ck.2
    if sm.2 > 0 then acc ++ [(ck.1, sm)] else acc

/-- The `category_scores` dict: categories (in table order, skipping
`"Other"`) that matched at least once, with their `(score, matches)`. -/
def categoryScores (vendor notes : String) : List (String × Nat × Nat) :=
  CATEGORY_KEYWORDS.foldl
    (catStep (toLowerL vendor.toList) (combinedText vendor notes)) []

/-- Python `max(..., key=(score, matches))`: the first element whose
key is lexicographically maximal (only a strictly greater key
replaces the current best). -/
def maxByKey (x : String × Nat × Nat) (xs : List (String × Nat × Nat)) :
    String × Nat × Nat :=
  xs.foldl
    (fun b c =>
      if b.2.1 < c.2.1 ∨ (b.2.1 = c.2.1 ∧ b.2.2 < c.2.2) then c else b)
    x

/-- `Categorizer.categorize`. -/
def categorize (vendor notes : String) : String × ℚ :=
  match categoryScores vendor notes with
  | [] => ("Other", 3/10)
  | x :: xs =>
    let best := maxByKey x xs
    (best.1, min (95/100) (6/10 + (best.2.2 : ℚ) * (1/10) + (best.2.1 : ℚ) * (1/100)))

/-! ## Ledger recalculation (`backend/main.py`)

`recalculate_remaining_balances` reads the transactions ordered by
`(date, id)` (ascending; SQL text ordering on the date strings is the
lexicographic byte order, which Lean's `String` order matches),
accumulates `balance += income - expense` writing the running value
onto each record, and finally stores the last running value as the
ledger's current balance.  `recalculate_balance` recomputes the totals
from the full set. -/

structure LTx where
  id : Int
  date : String
  income : ℚ
  expense : ℚ
  remaining_balance : ℚ := 0
deriving DecidableEq, Repr

/-- Lexicographic comparison of two character lists: SQL compares its
`TEXT` date column bytewise, which on UTF-8 equals the lexicographic
order of the code points. -/
def strLtL : List Char → List Char → Bool
  | _, [] => false
  | [], _ :: _ => true
  | a :: as, b :: bs =>
    if a < b then true else if b < a then false else strLtL as bs

/-- The `ORDER BY date, id` comparison. -/
def ledgerLE (a b : LTx) : Bool :=
  strLtL a.date.toList b.date.toList || (a.date == b.date && decide (a.id ≤ b.id))

/-- The recalculation walk: write the post-transaction running balance
onto every record, returning the final running value as well. -/
def applyRun (bal : ℚ) : List LTx → List LTx × ℚ
  | [] => ([], bal)
  | t :: ts =>
    let b := bal + t.income - t.expense
    let rec' := applyRun b ts
    ({ t with remaining_balance := b } :: rec'.1, rec'.2)

/-- `recalculate_remaining_balances(db)`: sort by `(date, id)`, walk in
order, and return the rewritten records (in that order) together with
the updated `current_balance`. -/
def recalculate_remaining_balances (opening : ℚ) (txs : List LTx) :
    List LTx × ℚ :=
  applyRun opening (sortLE ledgerLE txs)

structure BalanceTotals where
  total_income : ℚ
  total_expense : ℚ
  current_balance : ℚ
deriving DecidableEq, Repr

/-- `recalculate_balance(db)`: totals from the full transaction set and
`current = opening + total_income - total_expense`. -/
def recalculate_balance (opening : ℚ) (txs : List LTx) : BalanceTotals :=
  let ti := (txs.map (·.income)).sum
  let te := (txs.map (·.expense)).sum
  ⟨ti, te, opening + ti - te⟩

/-! ## `RiskDetector._detect_subscriptions`

The rule is a static helper over plain transaction dicts; it reads the
keys `vendor`, `amount`, `date` and `id` (as produced by
`Transaction.to_dict()`).  `strptime(tx['date'], "%Y-%m-%d")` is not
guarded, so a non-ISO date in a group under consideration raises
`ValueError`, modelled as `Except.error`. -/

structure SubTx where
  id : Int
  vendor : String
  amount : ℚ
  date : String
deriving DecidableEq, Repr

structure RiskAlert where
  severity : String
  type : String
  message : String
  transaction_ids : List Int
  recommended_action : String
deriving DecidableEq, Repr

/-- `datetime.strptime(s, "%Y-%m-%d")`, raising on failure. -/
def strptimeYmd (s : String) : Except String PDate :=
  match fmtYmdDash s.toList with
  | some d => .ok d
  | none => .error ("ValueError: time data " ++ s ++ " does not match format %Y-%m-%d")

/-- Sequential effectful map over `Except`, stopping at the first
raised error (Python loop semantics). -/
def exMapM (f : α → Except ε β) : List α → Except ε (List β)
  | [] => .ok []
  | a :: l =>
    match f a with
    | .error e => .error e
    | .ok b =>
      match exMapM f l with
      | .error e => .error e
      | .ok bs => .ok (b :: bs)

/-- First-occurrence deduplication: the key order of a `defaultdict`
filled by iterating the transaction list. -/
def firstDedup [DecidableEq α] : List α → List α
  | [] => []
  | a :: l => a :: firstDedup (l.filter (· ≠ a))
termination_by l => l.length
decreasing_by simp only [List.length_cons]; exact Nat.lt_succ_of_le (List.length_filter_le _ _)

/-- Differences of consecutive elements:
`[(dates[i+1] - dates[i]).days]`. -/
def pairDiffs : List Int → List Int
  | a :: b :: rest => (b - a) :: pairDiffs (b :: rest)
  | _ => []

/-- The per-vendor body of `_detect_subscriptions`: groups of fewer
than 3 transactions are skipped; otherwise, if all amounts coincide,
the dates are parsed (raising on a malformed one) and sorted, and an
alert carrying all the group's transaction ids is emitted when the
average day interval lies in `[25, 35]`. -/
def subsGroupCheck (vendor : String) (g : List SubTx) :
    Except String (Option RiskAlert) :=
  if g.length < 3 then .ok none
  else
    let amounts := g.map (·.amount)
    if amounts.dedup.length = 1 then
      match exMapM (fun t => strptimeYmd t.date) g with
      | .error e => .error e
      | .ok ds =>
        let sorted := sortLE (fun a b => decide (a ≤ b)) (ds.map toOrd)
        let intervals := pairDiffs sorted
        let avg : ℚ := (intervals.sum : ℚ) / (intervals.length : ℚ)
        if 25 ≤ avg ∧ avg ≤ 35 then
          .ok (some
            { severity := "low"
              type := "subscription_detected"
              message := "Potential monthly subscription detected for " ++ vendor ++
                         " with amount " ++ toString (amounts.headD 0)
              transaction_ids := g.map (·.id)
              recommended_action := "Confirm if this is a subscription and categorize accordingly" })
        else .ok none
    else .ok none

/-- `RiskDetector._detect_subscriptions`: group by vendor (first-seen
order, each group keeping the list order) and collect the per-group
alerts. -/
def detect_subscriptions (txs : List SubTx) : Except String (List RiskAlert) :=
  match exMapM
      (fun v => subsGroupCheck v (txs.filter fun t => t.vendor == v))
      (firstDedup (txs.map (·.vendor))) with
  | .error e => .error e
  | .ok opts => .ok (opts.filterMap id)

/-! ## `RiskDetector.analyze_transactions`

The endpoint passes `List[TransactionEntry]` (pydantic models) and the
detector converts them with `.dict()`.  `TransactionEntry`
(`backend/models.py`) declares the fields `id, date, vendor, income,
expense, transaction_type, currency, category, notes, confidence,
source_file, raw_text, is_duplicate, duplicate_of, needs_review,
created_at, updated_at` — in particular **no `amount` field** (the
extra `"amount"` key of `Transaction.to_dict()` is dropped by pydantic),
so every `tx['amount']` subscript on these dicts raises `KeyError`.
Dict values are modelled by `PyVal`; subscripting a missing key is an
`Except.error`.  `datetime.now()` enters as the day ordinal `now`
(taken at midnight of the current date; the evaluations below raise
before any wall-clock use). -/

/-- The nested `confidence` dict produced by the pydantic
`ConfidenceScore` model: exactly these four keys. -/
structure ConfVec where
  vendor : ℚ
  amount : ℚ
  date : ℚ
  category : ℚ
deriving DecidableEq, Repr

inductive PyVal where
  | none
  | int (z : ℤ)
  | num (q : ℚ)
  | str (s : String)
  | bool (b : Bool)
  | conf (c : ConfVec)
deriving DecidableEq, Repr

/-- The pydantic `TransactionEntry` model. -/
structure TxE where
  id : Option Int := Option.none
  date : String
  vendor : String
  income : ℚ := 0
  expense : ℚ := 0
  transaction_type : String := "expense"
  currency : String := "PKR"
  category : String
  notes : Option String := Option.none
  confidence : ConfVec
  source_file : String
  raw_text : Option String := Option.none
  is_duplicate : Bool := false
  duplicate_of : Option Int := Option.none
  needs_review : Bool := false
deriving DecidableEq, Repr

def pyOfOptInt : Option Int → PyVal
  | Option.some z => .int z
  | Option.none => .none

def pyOfOptStr : Option String → PyVal
  | Option.some s => .str s
  | Option.none => .none

/-- A Python dict: association list of string keys. -/
abbrev TxDict := List (String × PyVal)

/-- `TransactionEntry.dict()`: exactly the model's fields (the
timestamps are `None` for the records the risk endpoint builds). -/
def TxE.toDict (t : TxE) : TxDict :=
  [("id", pyOfOptInt t.id),
   ("date", .str t.date),
   ("vendor", .str t.vendor),
   ("income", .num t.income),
   ("expense", .num t.expense),
   ("transaction_type", .str t.transaction_type),
   ("currency", .str t.currency),
   ("category", .str t.category),
   ("notes", pyOfOptStr t.notes),
   ("confidence", .conf t.confidence),
   ("source_file", .str t.source_file),
   ("raw_text", pyOfOptStr t.raw_text),
   ("is_duplicate", .bool t.is_duplicate),
   ("duplicate_of", pyOfOptInt t.duplicate_of),
   ("needs_review", .bool t.needs_review),
   ("created_at", .none),
   ("updated_at", .none)]

def dFind (d : TxDict) (k : String) : Option PyVal :=
  ((d : List (String × PyVal)).find? fun kv => kv.1 == k).map (·.2)

/-- `d[k]`: raises `KeyError` on a missing key. -/
def dGet (d : TxDict) (k : String) : Except String PyVal :=
  match dFind d k with
  | Option.some v => .ok v
  | Option.none => .error ("KeyError: " ++ k)

/-- `d.get(k, default)`. -/
def dGetD (d : TxDict) (k : String) (dflt : PyVal) : PyVal :=
  (dFind d k).getD dflt

def asNum : PyVal → Except String ℚ
  | .num q => .ok q
  | .int z => .ok (z : ℚ)
  | _ => .error "TypeError: not a number"

def asStr : PyVal → Except String String
  | .str s => .ok s
  | _ => .error "TypeError: not a string"

def asConf : PyVal → Except String ConfVec
  | .conf c => .ok c
  | _ => .error "TypeError: not a confidence dict"

/-- Rendering of a value inside an f-string (numeric formatting is a
model artifact; the message text is never inspected by a theorem). -/
def pyRepr : PyVal → String
  | .none => "None"
  | .int z => toString z
  | .num q => toString q
  | .str s => s
  | .bool b => if b then "True" else "False"
  | .conf _ => "{...}"

def padZeros (nd : Nat) (s : String) : String :=
  if s.length < nd then String.mk (List.replicate (nd - s.length) '0') ++ s else s

/-- `f"{q:.nd f}"` for the non-negative values the messages render. -/
def qFmtFixed (nd : Nat) (q : ℚ) : String :=
  let scale : ℤ := (10 : ℤ) ^ nd
  let n := roundHalfEven (q * (scale : ℚ))
  let a := n.natAbs
  let sign := if n < 0 then "-" else ""
  sign ++ toString (a / scale.natAbs) ++ "." ++ padZeros nd (toString (a % scale.natAbs))

/-- Read a raw dict as the duplicate detector's `.get`-based entry view
(`find_duplicates` and `_calculate_similarity` only access entries via
`.get` of these keys). -/
def entryOfDict (d : TxDict) : Entry :=
  let optS := fun k => match dFind d k with
    | Option.some (.str s) => Option.some s
    | _ => Option.none
  let optQ := fun k => match dFind d k with
    | Option.some (.num q) => Option.some q
    | Option.some (.int z) => Option.some (z : ℚ)
    | _ => Option.none
  { id := match dFind d "id" with
      | Option.some (.int z) => Option.some z
      | _ => Option.none
    vendor := optS "vendor"
    merchant := optS "merchant"
    description := optS "description"
    income := optQ "income"
    expense := optQ "expense"
    amount := optQ "amount"
    date := optS "date"
    category := optS "category" }

/-- An alert as `risk_detector.py` builds it: the transaction-id list
holds raw dict values. -/
structure RAlert where
  severity : String
  type : String
  message : String
  transaction_ids : List PyVal
  recommended_action : String
deriving DecidableEq, Repr

/-- Rule 1, `_detect_duplicates`: walk the list with a `processed` set;
on a non-empty duplicate list the alert message interpolates
`tx['vendor']` and then `tx['amount']`. -/
def dupLoop (all : List TxDict) :
    Nat → List TxDict → List PyVal → List RAlert → Except String (List RAlert)
  | _, [], _, acc => .ok acc
  | i, tx :: rest, processed, acc => do
    let txid ← dGet tx "id"
    if txid ∈ processed then
      dupLoop all (i + 1) rest processed acc
    else
      let others := all.take i ++ all.drop (i + 1)
      let dups := find_duplicates (entryOfDict tx) (others.map entryOfDict) 90
      if dups ≠ [] then do
        let vd ← dGet tx "vendor"
        let am ← dGet tx "amount"
        let dup_ids := (dups.map fun dm => pyOfOptInt dm.entry_id) ++ [txid]
        let alert : RAlert :=
          { severity := "medium"
            type := "duplicate_charges"
            message := "Potential duplicate transactions detected for " ++ pyRepr vd ++
                       " with amount " ++ pyRepr am
            transaction_ids := dup_ids
            recommended_action := "Review and merge duplicate transactions" }
        dupLoop all (i + 1) rest (processed ++ dup_ids) (acc ++ [alert])
      else
        dupLoop all (i + 1) rest processed acc

def detect_duplicates_rule (tds : List TxDict) : Except String (List RAlert) :=
  dupLoop tds 0 tds [] []

/-- Rule 2, `_detect_large_transactions`:
`amounts = [tx['amount'] for tx in transactions if tx['amount'] > 0]`
subscripts the missing `amount` key of the first entry. -/
def detect_large_rule (tds : List TxDict) : Except String (List RAlert) := do
  let amounts ← exMapM (fun tx => do asNum (← dGet tx "amount")) tds
  let pos := amounts.filter fun a => 0 < a
  if pos = [] then pure []
  else
    let avg := pos.sum / (pos.length : ℚ)
    let threshold := avg * 2
    let opts ← exMapM (fun tx => do
      let a ← asNum (← dGet tx "amount")
      if a > threshold then do
        let txid ← dGet tx "id"
        pure (Option.some
          { severity := "high"
            type := "unusually_large_transaction"
            message := "Transaction amount " ++ pyRepr (.num a) ++
                       " is unusually large compared to historical average of " ++ qFmtFixed 2 avg
            transaction_ids := [txid]
            recommended_action := "Verify the transaction details and source" : RAlert})
      else pure Option.none) tds
    pure (opts.filterMap id)

/-- Rule 3, `_detect_low_confidence`. -/
def detect_low_confidence_rule (tds : List TxDict) : Except String (List RAlert) := do
  let opts ← exMapM (fun tx => do
    let c ← asConf (← dGet tx "confidence")
    let low := (if c.vendor < 9/10 then ["vendor"] else []) ++
               (if c.amount < 9/10 then ["amount"] else []) ++
               (if c.date < 9/10 then ["date"] else []) ++
               (if c.category < 9/10 then ["category"] else [])
    if low ≠ [] then do
      let txid ← dGet tx "id"
      pure (Option.some
        { severity := "medium"
          type := "low_confidence_fields"
          message := "Low confidence in fields: " ++ String.intercalate ", " low ++
                     " for transaction " ++ pyRepr txid
          transaction_ids := [txid]
          recommended_action := "Review and correct the low-confidence fields" : RAlert})
    else pure Option.none) tds
  pure (opts.filterMap id)

def alGet (l : List (String × β)) (k : String) : Option β :=
  (l.find? fun kv => kv.1 == k).map (·.2)

def alSet (l : List (String × β)) (k : String) (v : β) : List (String × β) :=
  if (l.find? fun kv => kv.1 == k).isSome then
    l.map fun kv => if kv.1 == k then (k, v) else kv
  else l ++ [(k, v)]

/-- A `defaultdict` subscript read: inserts the default on a missing
key and returns the resulting table and value. -/
def alTouch (l : List (String × β)) (k : String) (dflt : β) :
    List (String × β) × β :=
  match alGet l k with
  | Option.some v => (l, v)
  | Option.none => (l ++ [(k, dflt)], dflt)

def monthKeyOf (d : PDate) : String :=
  toString d.year ++ "-" ++ padZeros 2 (toString d.month)

/-- The guarded accumulation loop of `_detect_category_changes`.  The
augmented assignment
`monthly_spend[month_key][tx['category']] += tx['amount']`
touches the outer and inner `defaultdict` slots (creating them at
`0.0`) before the right-hand side raises `KeyError` on `amount`; the
bare `except` then skips the transaction, keeping the touched slot. -/
def catMonthlyStep (acc : List (String × List (String × ℚ))) (tx : TxDict) :
    List (String × List (String × ℚ)) :=
  match dFind tx "date" with
  | Option.some (.str s) =>
    match fmtYmdDash s.toList with
    | Option.some d =>
      let mk := monthKeyOf d
      let touched := alTouch acc mk []
      match dFind tx "category" with
      | Option.some (.str cat) =>
        let inner := alTouch touched.2 cat 0
        let acc1 := alSet touched.1 mk inner.1
        match dFind tx "amount" with
        | Option.some (.num q) => alSet acc1 mk (alSet inner.1 cat (inner.2 + q))
        | Option.some (.int z) => alSet acc1 mk (alSet inner.1 cat (inner.2 + (z : ℚ)))
        | _ => acc1            -- KeyError/TypeError caught: slot stays at its touched value
      | _ => touched.1         -- category not a usable key: caught, outer slot stays
    | Option.none => acc       -- ValueError from strptime, caught
  | _ => acc                   -- non-string date: caught

/-- Rule 4, `_detect_category_changes`.  Python iterates
`set(prev) | set(curr)` in unspecified order; the model fixes the
first-occurrence order, which can permute alerts but not their set. -/
def detect_category_changes_rule (tds : List TxDict) : Except String (List RAlert) := do
  let monthly := tds.foldl catMonthlyStep []
  let months := sortLE (fun a b => decide (a ≤ b)) (monthly.map (·.1))
  let pairs := months.zip months.tail
  let nested ← exMapM (fun (mp : String × String) => do
    let prev := (alGet monthly mp.1).getD []
    let curr := (alGet monthly mp.2).getD []
    let cats := firstDedup (prev.map (·.1) ++ curr.map (·.1))
    let opts ← exMapM (fun cat => do
      let prev_amt := (alGet prev cat).getD 0
      let curr_amt := (alGet curr cat).getD 0
      if prev_amt > 0 then
        let change_pct := ((curr_amt - prev_amt) / prev_amt) * 100
        if |change_pct| > 25 then do
          let ids ← exMapM (fun tx => do
            if dGetD tx "category" .none = .str cat then do
              let ds ← asStr (← dGet tx "date")
              if ds.startsWith mp.2 then do
                let txid ← dGet tx "id"
                pure [txid]
              else pure []
            else pure []) tds
          let tx_ids := ids.flatten
          if tx_ids ≠ [] then
            pure [{ severity := "medium"
                    type := "sudden_category_change"
                    message := "Sudden " ++ qFmtFixed 1 change_pct ++ "% change in " ++ cat ++
                               " spending from " ++ qFmtFixed 2 prev_amt ++ " to " ++
                               qFmtFixed 2 curr_amt ++ " in " ++ mp.2
                    transaction_ids := tx_ids
                    recommended_action := "Investigate the reason for the spending change" : RAlert}]
          else pure []
        else pure []
      else pure []) cats
    pure opts.flatten) pairs
  pure nested.flatten

/-- Rule 5, `_detect_subscriptions`, on the raw dicts the detector is
given: grouping reads `tx['vendor']`; a group of three or more then
reads the missing `tx['amount']` key. -/
def detect_subscriptions_rule (tds : List TxDict) : Except String (List RAlert) := do
  let vendors ← exMapM (fun tx => do asStr (← dGet tx "vendor")) tds
  let keyed := vendors.zip tds
  let opts ← exMapM (fun v => do
    let g := (keyed.filter fun p => p.1 == v).map (·.2)
    if g.length < 3 then pure Option.none
    else do
      let amounts ← exMapM (fun tx => do asNum (← dGet tx "amount")) g
      if amounts.dedup.length = 1 then do
        let ds ← exMapM (fun tx => do strptimeYmd (← asStr (← dGet tx "date"))) g
        let sorted := sortLE (fun a b => decide (a ≤ b)) (ds.map toOrd)
        let intervals := pairDiffs sorted
        let avg : ℚ := (intervals.sum : ℚ) / (intervals.length : ℚ)
        if 25 ≤ avg ∧ avg ≤ 35 then do
          let ids ← exMapM (fun tx => dGet tx "id") g
          pure (Option.some
            { severity := "low"
              type := "subscription_detected"
              message := "Potential monthly subscription detected for " ++ v ++
                         " with amount " ++ pyRepr (.num (amounts.headD 0))
              transaction_ids := ids
              recommended_action := "Confirm if this is a subscription and categorize accordingly" : RAlert})
        else pure Option.none
      else pure Option.none) (firstDedup vendors)
  pure (opts.filterMap id)

/-- The projection walk of `_detect_balance_risk`: subtract each future
amount, stopping at the first date the balance goes negative. -/
def depleteWalk (bal : ℚ) : List (Int × ℚ) → Option Int
  | [] => Option.none
  | (d, a) :: rest =>
    let b := bal - a
    if b < 0 then Option.some d else depleteWalk b rest

/-- Rule 6, `_detect_balance_risk`. -/
def detect_balance_risk_rule (now : Int) (tds : List TxDict) :
    Except String (List RAlert) := do
  let keyed ← exMapM (fun tx => do pure ((← asStr (← dGet tx "date")), tx)) tds
  let sorted_txs := (sortLE (fun a b => decide (a.1 ≤ b.1)) keyed).map (·.2)
  let balance ← match sorted_txs with
    | [] => pure (0 : ℚ)
    | t :: _ => asNum (dGetD t "remaining_balance" (.int 0))
  let projected := sorted_txs.foldl
    (fun acc tx =>
      -- try: parse the date; any error in the body is caught and skipped
      match dFind tx "date" with
      | Option.some (.str s) =>
        match fmtYmdDash s.toList with
        | Option.some d =>
          if toOrd d > now then
            match dFind tx "transaction_type", dFind tx "amount" with
            | Option.some (.str ty), Option.some (.num a) =>
              acc ++ [(toOrd d, if ty == "expense" then a else -a)]
            | Option.some (.str ty), Option.some (.int z) =>
              acc ++ [(toOrd d, if ty == "expense" then (z : ℚ) else -(z : ℚ))]
            | _, _ => acc      -- KeyError on 'amount' (or bad type), caught
          else acc
        | Option.none => acc   -- ValueError, caught
      | _ => acc) []
  match depleteWalk balance projected with
  | Option.some d =>
    if d - now ≤ 90 then
      pure [{ severity := "high"
              type := "projected_balance_risk"
              message := "Projected cash depletion within " ++ toString (d - now) ++
                         " days based on upcoming expenses"
              transaction_ids := []
              recommended_action := "Review upcoming expenses and adjust budget" : RAlert}]
    else pure []
  | Option.none => pure []

/-- Rule 7, `_detect_first_time_vendor`: the counting loop reads
`tx['vendor']` and then the missing `tx['amount']`. -/
def detect_first_time_vendor_rule (tds : List TxDict) :
    Except String (List RAlert) := do
  let pairs ← exMapM (fun tx => do
    let v ← asStr (← dGet tx "vendor")
    let a ← asNum (← dGet tx "amount")
    pure (v, a)) tds
  let avg : ℚ := if tds ≠ [] then (pairs.map (·.2)).sum / (tds.length : ℚ) else 0
  let opts ← exMapM (fun v => do
    let mine := pairs.filter fun p => p.1 == v
    if mine.length = 1 ∧ (mine.map (·.2)).sum > avg * (3/2) then
      match (pairs.zip tds).find? fun p => p.1.1 == v with
      | Option.some p => do
        let txid ← dGet p.2 "id"
        pure (Option.some
          { severity := "medium"
            type := "first_time_high_value_vendor"
            message := "First-time vendor " ++ v ++ " with high value transaction of " ++
                       pyRepr (.num ((mine.map (·.2)).sum))
            transaction_ids := [txid]
            recommended_action := "Verify the legitimacy of this new vendor transaction" : RAlert})
      | Option.none => pure Option.none
    else pure Option.none) (firstDedup (pairs.map (·.1)))
  pure (opts.filterMap id)

/-- Rule 8, `_detect_weekend_spikes`: the accumulation loop is guarded
by a bare `except`, but the id comprehension emitted with an alert
calls `strptime` unguarded. -/
def detect_weekend_spikes_rule (tds : List TxDict) :
    Except String (List RAlert) := do
  let totals := tds.foldl
    (fun (acc : ℚ × ℚ × Nat × Nat) tx =>
      match dFind tx "date" with
      | Option.some (.str s) =>
        match fmtYmdDash s.toList with
        | Option.some d =>
          match dFind tx "amount" with
          | Option.some (.num a) =>
            if pyWeekday d ≥ 5 then (acc.1 + a, acc.2.1, acc.2.2.1 + 1, acc.2.2.2)
            else (acc.1, acc.2.1 + a, acc.2.2.1, acc.2.2.2 + 1)
          | Option.some (.int z) =>
            if pyWeekday d ≥ 5 then (acc.1 + (z : ℚ), acc.2.1, acc.2.2.1 + 1, acc.2.2.2)
            else (acc.1, acc.2.1 + (z : ℚ), acc.2.2.1, acc.2.2.2 + 1)
          | _ => acc           -- KeyError on 'amount', caught
        | Option.none => acc   -- ValueError, caught
      | _ => acc)
    (0, 0, 0, 0)
  let weekend_spend := totals.1
  let weekday_spend := totals.2.1
  let weekend_count := totals.2.2.1
  let weekday_count := totals.2.2.2
  if weekday_count > 0 ∧ weekend_count > 0 then
    let avg_weekday := weekday_spend / (weekday_count : ℚ)
    let avg_weekend := weekend_spend / (weekend_count : ℚ)
    if avg_weekend > avg_weekday * (3/2) then do
      let ids ← exMapM (fun tx => do
        let d ← strptimeYmd (← asStr (← dGet tx "date"))
        if pyWeekday d ≥ 5 then do
          let txid ← dGet tx "id"
          pure [txid]
        else pure []) tds
      pure [{ severity := "low"
              type := "weekend_spending_spike"
              message := "Unusual spending spike on weekends: " ++ qFmtFixed 2 avg_weekend ++
                         " vs weekday average " ++ qFmtFixed 2 avg_weekday
              transaction_ids := ids.flatten
              recommended_action := "Review weekend transactions for unusual activity" : RAlert}]
    else pure []
  else pure []

/-- Rule 9, `_detect_tax_deductible`: the conjunction short-circuits,
so the missing `tx['amount']` is read only for a matching category. -/
def detect_tax_deductible_rule (tds : List TxDict) :
    Except String (List RAlert) := do
  let tax_categories := ["business", "medical", "charity", "education", "home_office"]
  let opts ← exMapM (fun tx => do
    let cat ← asStr (← dGet tx "category")
    if cat.toLower ∈ tax_categories then do
      let a ← asNum (← dGet tx "amount")
      if a > 100 then do
        let txid ← dGet tx "id"
        pure (Option.some
          { severity := "low"
            type := "potential_tax_deductible"
            message := "Potential tax-deductible expense in category " ++ cat ++
                       " for amount " ++ pyRepr (.num a)
            transaction_ids := [txid]
            recommended_action := "Check if this expense qualifies for tax deduction" : RAlert})
      else pure Option.none
    else pure Option.none) tds
  pure (opts.filterMap id)

/-- The value `analyze_transactions` returns: `no_alerts` models the
presence of the `"no_alerts": True` key. -/
structure RiskResult where
  alerts : List RAlert
  no_alerts : Bool := false
deriving DecidableEq, Repr

/-- `RiskDetector.analyze_transactions`: empty input short-circuits to
the distinct no-risks result; otherwise the pydantic models are
converted with `.dict()` and the nine rules run in order, their alerts
concatenated.  An uncaught exception in any rule propagates. -/
def analyze_transactions (now : Int) (transactions : List TxE) :
    Except String RiskResult := do
  if transactions = [] then
    pure { alerts := [], no_alerts := true }
  else
    let tds := transactions.map TxE.toDict
    let a1 ← detect_duplicates_rule tds
    let a2 ← detect_large_rule tds
    let a3 ← detect_low_confidence_rule tds
    let a4 ← detect_category_changes_rule tds
    let a5 ← detect_subscriptions_rule tds
    let a6 ← detect_balance_risk_rule now tds
    let a7 ← detect_first_time_vendor_rule tds
    let a8 ← detect_weekend_spikes_rule tds
    let a9 ← detect_tax_deductible_rule tds
    let alerts := a1 ++ a2 ++ a3 ++ a4 ++ a5 ++ a6 ++ a7 ++ a8 ++ a9
    if alerts = [] then pure { alerts := [], no_alerts := true }
    else pure { alerts := alerts }

/-- Interleave `sep` between groups: the left inverse of `splitSep`. -/
def joinSep (sep : Char) : List (List Char) → List Char
  | [] => []
  | [g] => g
  | g :: gs => g ++ sep :: joinSep sep gs

/-- The subscription condition of one vendor group, as the rule
computes it: at least three transactions, a single distinct amount,
and (the dates parsing as `%Y-%m-%d`) an average day interval between
consecutive sorted dates inside `[25, 35]`. -/
def subsCond (g : List SubTx) : Prop :=
  3 ≤ g.length ∧ (g.map (·.amount)).dedup.length = 1 ∧
  (match exMapM (fun t => strptimeYmd t.date) g with
   | .ok ds =>
     let sorted := sortLE (fun a b => decide (a ≤ b)) (ds.map toOrd)
     let intervals := pairDiffs sorted
     25 ≤ (intervals.sum : ℚ) / (intervals.length : ℚ) ∧
     (intervals.sum : ℚ) / (intervals.length : ℚ) ≤ 35
   | .error _ => False)

/-! ## Concrete records instantiating the theorems -/

def entryKfcA : Entry :=
  { vendor := some "KFC Johar", expense := some 550, date := some "2024-01-10" }

def entryKfcB : Entry :=
  { id := some 2, vendor := some "KFC Johar Town", expense := some 555,
    date := some "2024-01-10" }

/-- A record with every compared field identical to itself but an empty
vendor (and no amount field set besides `income`). -/
def entryNoVendor : Entry :=
  { income := some 5, date := some "2024-01-15", category := some "Food" }

def entryFull : Entry :=
  { id := some 1, vendor := some "KFC", income := some 5,
    date := some "2024-01-15", category := some "Food" }

/-- `income` present with value `0`, `expense` present and nonzero. -/
def entryZeroIncome : Entry := { income := some 0, expense := some 5 }

def demoLedger : List LTx :=
  [⟨2, "2024-01-02", 500, 0, 0⟩, ⟨1, "2024-01-01", 0, 200, 0⟩]

def confAll1 : ConfVec := ⟨1, 1, 1, 1⟩

def txKfc : TxE :=
  { id := some 1, date := "2024-01-15", vendor := "KFC", expense := 500,
    category := "Food", confidence := confAll1, source_file := "receipt.jpg" }

def nowOrd : Int := toOrd ⟨2025, 10, 12⟩

def subNetflix : List SubTx :=
  [⟨1, "Netflix", 1200, "2024-01-01"⟩, ⟨2, "Netflix", 1200, "2024-01-31"⟩,
   ⟨3, "Netflix", 1200, "2024-03-02"⟩]

def centZeroAmount : CEntry :=
  { date := some "2026-01-01", amount := some 0, vendor := some "KFC",
    confidence := [("vendor", 1), ("amount", 1), ("date", 1), ("category", 1)] }

def centEmptyConf : CEntry :=
  { date := some "2024-01-15", amount := some 100, vendor := some "KFC",
    confidence := [] }

/-- The alert the subscription rule emits for the `subNetflix` group. -/
def subNetflixAlert : RiskAlert :=
  { severity := "low"
    type := "subscription_detected"
    message := "Potential monthly subscription detected for " ++ "Netflix" ++
      " with amount " ++ toString ((subNetflix.map (·.amount)).headD 0)
    transaction_ids := [1, 2, 3]
    recommended_action := "Confirm if this is a subscription and categorize accordingly" }

/-! ## Theorems -/

/-- **C8.** `needs_review` is true exactly when a flag fired, or the
overall confidence (mean of the confidence vector) is below `0.7`, or
the amount is exactly zero; in particular a zero amount forces
`needs_review` whatever the other fields and the current time are. -/
theorem c8_needs_review_iff (now : Int) (e : CEntry) :
    ((analyze_entry now e).needs_review = true ↔
      ((analyze_entry now e).flags ≠ [] ∨
       (analyze_entry now e).overall_confidence < 7/10 ∨
       e.amount.getD 0 = 0)) ∧
    (e.amount.getD 0 = 0 → (analyze_entry now e).needs_review = true) := by
  have h : (analyze_entry now e).needs_review
      = (decide ((analyze_entry now e).flags ≠ []) ||
         decide ((analyze_entry now e).overall_confidence < 7/10) ||
         decide (e.amount.getD 0 = 0)) := rfl
  constructor
  · rw [h]; simp [or_assoc]
  · intro ha; rw [h, ha]; simp

/-- **C8 witness.** A concrete zero-amount record with full confidence
and a future date is flagged for review. -/
theorem c8_witness :
    (analyze_entry nowOrd centZeroAmount).needs_review = true :=
  (c8_needs_review_iff nowOrd centZeroAmount).2 rfl

/-- **C10.** On an empty confidence vector `analyze_entry` returns
normally with overall confidence `0.0` (the mean is guarded, no
division by zero) and consequently `needs_review` is true. -/
theorem c10_empty_confidence (now : Int) (e : CEntry) (h : e.confidence = []) :
    (analyze_entry now e).overall_confidence = 0 ∧
    (analyze_entry now e).needs_review = true := by
  have hov : (analyze_entry now e).overall_confidence = 0 := by
    simp [analyze_entry, h]
  refine ⟨hov, ?_⟩
  have hnr : (analyze_entry now e).needs_review
      = (decide ((analyze_entry now e).flags ≠ []) ||
         decide ((analyze_entry now e).overall_confidence < 7/10) ||
         decide (e.amount.getD 0 = 0)) := rfl
  rw [hnr, hov]
  simp [show (0:ℚ) < 7/10 by norm_num]

/-- **C10 witness.** -/
theorem c10_witness :
    (analyze_entry nowOrd centEmptyConf).overall_confidence = 0 ∧
    (analyze_entry nowOrd centEmptyConf).needs_review = true :=
  c10_empty_confidence nowOrd centEmptyConf rfl

/-- **C5.** The batch operations at their boundary: the duplicate
batch-check and the risk analysis handle the empty set by returning an
empty map resp. the distinct no-risks result, but `analyze_transactions`
raises `KeyError: 'amount'` on any non-empty input because the pydantic
`TransactionEntry.dict()` it receives carries `income`/`expense` but no
`amount` key, which every rule subscripts (first
`_detect_large_transactions`). -/
theorem c5_batch_operations :
    analyze_transactions nowOrd [] = .ok { alerts := [], no_alerts := true } ∧
    batch_check_duplicates [] 70 = [] ∧
    analyze_transactions nowOrd [txKfc] = .error "KeyError: amount" :=
  ⟨rfl, rfl, rfl⟩

/-- **C4 (counterexample).** For the record with `income = 0` and
`expense = 5` the claim selects the first non-missing field (`income`,
value `0`), but the code's `or`-chain skips the falsy `0` and yields
the expense `5`. -/
theorem c4_counterexample :
    get_amount entryZeroIncome = some 5 ∧ some (5 : ℚ) ≠ some (0 : ℚ) := by
  decide

/-- **C4 (amended).** The representative magnitude is the first
*truthy* (present and nonzero) value among `income`, `expense`,
`amount` in that order; when income and expense are absent or zero it
is the `amount` field's value (possibly `0`, possibly missing).  If a
record yields no value, its amount-similarity component is `0`. -/
theorem c4_amount_selection (e : Entry) :
    (∀ x, e.income = some x → x ≠ 0 → get_amount e = some x) ∧
    (∀ y, (e.income = none ∨ e.income = some 0) → e.expense = some y → y ≠ 0 →
      get_amount e = some y) ∧
    ((e.income = none ∨ e.income = some 0) →
      (e.expense = none ∨ e.expense = some 0) →
      get_amount e = e.amount) ∧
    (∀ e2, get_amount e = none →
      (calculate_similarity e e2).details.amount = 0 ∧
      (calculate_similarity e2 e).details.amount = 0) := by
  refine ⟨?_, ?_, ?_, ?_⟩
  · intro x hx hx0
    simp [get_amount, pyOrQ, hx, hx0]
  · intro y hi he hy0
    rcases hi with hi | hi <;> simp [get_amount, pyOrQ, hi, he, hy0]
  · intro hi he
    rcases hi with hi | hi <;> rcases he with he | he <;>
      simp [get_amount, pyOrQ, hi, he]
  · intro e2 h
    constructor
    · simp only [calculate_similarity, h]
      cases get_amount e2 <;> simp [amountScore]
    · simp only [calculate_similarity, h]
      cases get_amount e2 <;> simp [amountScore]

/-- **C4 witness.** Instantiating the amended rule at the
counterexample record: the expense `5` is selected over the present
zero income. -/
theorem c4_witness : get_amount entryZeroIncome = some 5 :=
  (c4_amount_selection entryZeroIncome).2.1 5 (Or.inr rfl) rfl (by norm_num)

/-- **C2 (counterexample).** Two records with identical amount, vendor,
date and category field values (the vendor being empty on both sides)
score `60`, not `100`: the vendor, being empty, contributes `0`. -/
theorem c2_counterexample :
    (calculate_similarity entryNoVendor entryNoVendor).overall = 60 ∧
    (calculate_similarity entryNoVendor entryNoVendor).overall ≠ 100 := by
  have hov : (calculate_similarity entryNoVendor entryNoVendor).overall = 60 := by
    have hd : parse_date "2024-01-15" = some ⟨2024, 1, 15⟩ := by decide
    have ha : get_amount entryNoVendor = some 5 := by decide
    unfold calculate_similarity
    rw [show entryNoVendor.date.getD "" = "2024-01-15" from rfl, hd, ha]
    rw [show vendorText entryNoVendor = [] from by decide]
    rw [show categoryText entryNoVendor = "food".toList from by decide]
    norm_num [amountScore, dateScore]
    simp
    norm_num
  exact ⟨hov, by rw [hov]; norm_num⟩

/-! ### Sorting lemmas for `sortLE` -/

theorem mem_insertLE {le : α → α → Bool} {a x : α} {l : List α} :
    x ∈ insertLE le a l ↔ x = a ∨ x ∈ l := by
  induction l with
  | nil => simp [insertLE]
  | cons b l ih =>
    by_cases h : le a b = true
    · simp [insertLE, h]
    · simp only [insertLE, h, if_false, Bool.false_eq_true, List.mem_cons, ih]
      tauto

theorem insertLE_perm (le : α → α → Bool) (a : α) (l : List α) :
    List.Perm (insertLE le a l) (a :: l) := by
  induction l with
  | nil => simp [insertLE]
  | cons b l ih =>
    by_cases h : le a b = true
    · simp [insertLE, h]
    · simp only [insertLE, h, if_false, Bool.false_eq_true]
      exact ((ih.cons b).trans (List.Perm.swap a b l))

theorem sortLE_perm (le : α → α → Bool) (l : List α) : List.Perm (sortLE le l) l := by
  induction l with
  | nil => simp [sortLE]
  | cons x l ih => exact (insertLE_perm le x (sortLE le l)).trans (ih.cons x)

theorem mem_sortLE {le : α → α → Bool} {x : α} {l : List α} :
    x ∈ sortLE le l ↔ x ∈ l :=
  (sortLE_perm le l).mem_iff

theorem insertLE_sorted {le : α → α → Bool}
    (htr : ∀ a b c, le a b = true → le b c = true → le a c = true)
    (hto : ∀ a b, le a b = true ∨ le b a = true)
    {a : α} {l : List α} (h : l.Pairwise (le · ·)) :
    (insertLE le a l).Pairwise (le · ·) := by
  induction l with
  | nil => simp [insertLE]
  | cons b l ih =>
    rcases List.pairwise_cons.mp h with ⟨hb, hl⟩
    by_cases hab : le a b = true
    · simp only [insertLE, hab, if_true]
      refine List.pairwise_cons.mpr ⟨?_, h⟩
      intro y hy
      rcases List.mem_cons.mp hy with rfl | hy
      · exact hab
      · exact htr a b y hab (hb y hy)
    · simp only [insertLE, hab, if_false, Bool.false_eq_true]
      refine List.pairwise_cons.mpr ⟨?_, ih hl⟩
      intro y hy
      rcases mem_insertLE.mp hy with rfl | hy
      · rcases hto y b with hyb | hby
        · exact absurd hyb hab
        · exact hby
      · exact hb y hy

theorem sortLE_sorted {le : α → α → Bool}
    (htr : ∀ a b c, le a b = true → le b c = true → le a c = true)
    (hto : ∀ a b, le a b = true ∨ le b a = true)
    (l : List α) : (sortLE le l).Pairwise (le · ·) := by
  induction l with
  | nil => simp [sortLE]
  | cons x l ih => exact insertLE_sorted htr hto ih

theorem sortLE_of_sorted {le : α → α → Bool} {l : List α}
    (h : l.Pairwise (le · ·)) : sortLE le l = l := by
  induction l with
  | nil => rfl
  | cons x l ih =>
    rcases List.pairwise_cons.mp h with ⟨hx, hl⟩
    show insertLE le x (sortLE le l) = x :: l
    rw [ih hl]
    cases l with
    | nil => rfl
    | cons b l' => simp [insertLE, hx b (List.mem_cons_self b l')]

/-- **C3.** `find_duplicates` output is sorted by descending similarity
score and every returned match scores at least the threshold argument. -/
theorem c3_find_duplicates_sorted (cand : Entry) (existing : List Entry)
    (threshold : ℚ) :
    (find_duplicates cand existing threshold).Pairwise
      (fun a b => b.similarity_score ≤ a.similarity_score) ∧
    ∀ m ∈ find_duplicates cand existing threshold,
      threshold ≤ m.similarity_score := by
  constructor
  · have hs := @sortLE_sorted DupMatch
      (fun a b : DupMatch => decide (b.similarity_score ≤ a.similarity_score))
      (fun a b c hab hbc => by
        simp only [decide_eq_true_eq] at *
        exact le_trans hbc hab)
      (fun a b => by
        simp only [decide_eq_true_eq]
        exact le_total b.similarity_score a.similarity_score)
      (existing.filterMap fun ex =>
        let sim := calculate_similarity cand ex
        if threshold ≤ sim.overall then
          some ⟨ex.id, ex, sim.overall, sim.details⟩
        else none)
    exact hs.imp fun h => of_decide_eq_true h
  · intro m hm
    have hm' := mem_sortLE.mp hm
    rcases List.mem_filterMap.mp hm' with ⟨ex, _, hf⟩
    by_cases hc : threshold ≤ (calculate_similarity cand ex).overall
    · simp only [hc, if_true, Option.some.injEq] at hf
      rw [← hf]
      exact hc
    · simp [hc] at hf

/-! ### Identical-record similarity -/

theorem lev2_self (l : List Char) : lev2 l l = 0 := by
  induction l with
  | nil => simp [lev2]
  | cons x xs ih => simp [lev2, ih]

theorem fuzzScore_self (l : List Char) : fuzzScore l l = 100 := by
  unfold fuzzScore
  by_cases h : l.length + l.length = 0
  · simp [h]
  · simp only [h, if_false]
    rw [lev2_self]
    push_cast
    rw [sub_zero]
    have h0 : ((l.length : ℚ) + (l.length : ℚ)) ≠ 0 := by
      have h1 : l.length ≠ 0 := by omega
      positivity
    rw [div_self h0, mul_one]
    norm_num

/-- Helper: two records with identical compared field values, a
non-empty processed vendor, a parseable date, a non-empty category and
an extractable amount score `100` on every component. -/
theorem calc_similarity_identical (e1 e2 : Entry)
    (hinc : e2.income = e1.income) (hexp : e2.expense = e1.expense)
    (hamt : e2.amount = e1.amount)
    (hv : e2.vendor = e1.vendor) (hm : e2.merchant = e1.merchant)
    (hds : e2.description = e1.description)
    (hdate : e2.date = e1.date) (hcat : e2.category = e1.category)
    (hga : get_amount e1 ≠ none)
    (hvt : vendorText e1 ≠ [])
    (hpd : parse_date (e1.date.getD "") ≠ none)
    (hct : categoryText e1 ≠ []) :
    calculate_similarity e1 e2 = ⟨100, ⟨100, 100, 100, 100⟩⟩ := by
  have hga2 : get_amount e2 = get_amount e1 := by
    unfold get_amount
    rw [hinc, hexp, hamt]
  have hvt2 : vendorText e2 = vendorText e1 := by
    unfold vendorText
    rw [hv, hm, hds]
  have hct2 : categoryText e2 = categoryText e1 := by
    unfold categoryText
    rw [hcat]
  obtain ⟨a, ha⟩ := Option.ne_none_iff_exists'.mp hga
  obtain ⟨d, hdp⟩ := Option.ne_none_iff_exists'.mp hpd
  unfold calculate_similarity
  rw [hga2, hvt2, hct2, hdate, ha, hdp]
  simp only [amountScore, if_pos rfl, dateScore, sub_self, abs_zero,
    fuzzScore_self (vendorText e1), ne_eq, hvt, not_false_iff, and_self, if_true,
    hct]
  norm_num

/-- **C2 (amended).** For every pair of records whose amount-bearing,
vendor-bearing, date and category field values are identical, with the
processed vendor and category non-empty, the date parseable and a
representative amount extractable, the overall score is exactly `100`
(when one of those is empty or unobtainable, its component scores `0`
and the overall drops below `100`, as in the counterexample). -/
theorem c2_identical_records (e1 e2 : Entry)
    (hinc : e2.income = e1.income) (hexp : e2.expense = e1.expense)
    (hamt : e2.amount = e1.amount)
    (hv : e2.vendor = e1.vendor) (hm : e2.merchant = e1.merchant)
    (hds : e2.description = e1.description)
    (hdate : e2.date = e1.date) (hcat : e2.category = e1.category)
    (hga : get_amount e1 ≠ none)
    (hvt : vendorText e1 ≠ [])
    (hpd : parse_date (e1.date.getD "") ≠ none)
    (hct : categoryText e1 ≠ []) :
    (calculate_similarity e1 e2).overall = 100 := by
  rw [calc_similarity_identical e1 e2 hinc hexp hamt hv hm hds hdate hcat
    hga hvt hpd hct]

/-- **C2 witness.** A fully-populated record compared with itself
scores `100`. -/
theorem c2_witness : (calculate_similarity entryFull entryFull).overall = 100 :=
  c2_identical_records entryFull entryFull rfl rfl rfl rfl rfl rfl rfl rfl
    (by decide) (by decide) (by decide) (by decide)

/-- Helper: the concrete duplicate list backing the C3 witness. -/
theorem find_dup_entryFull :
    find_duplicates entryFull [entryFull] 70 =
      [⟨some 1, entryFull, 100, ⟨100, 100, 100, 100⟩⟩] := by
  have h := calc_similarity_identical entryFull entryFull rfl rfl rfl rfl rfl rfl
    rfl rfl (by decide) (by decide) (by decide) (by decide)
  unfold find_duplicates
  simp only [List.filterMap, h]
  norm_num
  rfl

/-- **C3 witness.** The single returned match for a self-comparison at
threshold `70` scores at least `70`. -/
theorem c3_witness :
    70 ≤ ((find_duplicates entryFull [entryFull] 70).headD
      ⟨none, entryFull, 0, ⟨0, 0, 0, 0⟩⟩).similarity_score :=
  (c3_find_duplicates_sorted entryFull [entryFull] 70).2 _
    (by rw [find_dup_entryFull]; exact List.mem_cons_self _ _)

/-! ### Ledger recalculation lemmas -/

theorem strLtL_iff (x y : List Char) : strLtL x y = true ↔ x < y := by
  induction x generalizing y with
  | nil =>
    cases y with
    | nil =>
      simp only [strLtL, Bool.false_eq_true, false_iff]
      exact List.Lex.not_nil_right _ _
    | cons b bs =>
      simp only [strLtL, true_iff]
      exact List.Lex.nil
  | cons a as ih =>
    cases y with
    | nil =>
      simp only [strLtL, Bool.false_eq_true, false_iff]
      exact List.Lex.not_nil_right _ _
    | cons b bs =>
      by_cases hab : a < b
      · simp only [strLtL, hab, if_true, true_iff]
        exact List.Lex.rel hab
      · by_cases hba : b < a
        · simp only [strLtL, hab, hba, if_true, if_false, Bool.false_eq_true, false_iff]
          intro h
          cases h with
          | cons h' => exact absurd hba (lt_irrefl a)
          | rel h' => exact hab h'
        · have heq : a = b := le_antisymm (le_of_not_lt hba) (le_of_not_lt hab)
          subst heq
          simp only [strLtL, lt_irrefl, if_false, ih]
          constructor
          · exact fun h => List.Lex.cons h
          · intro h
            cases h with
            | cons h' => exact h'
            | rel h' => exact absurd h' (lt_irrefl a)

theorem ledgerLE_iff (a b : LTx) :
    ledgerLE a b = true ↔ (a.date < b.date ∨ (a.date = b.date ∧ a.id ≤ b.id)) := by
  unfold ledgerLE
  rw [Bool.or_eq_true, Bool.and_eq_true, strLtL_iff, beq_iff_eq, decide_eq_true_iff,
    ← String.lt_iff_toList_lt]

theorem ledgerLE_trans (a b c : LTx) :
    ledgerLE a b = true → ledgerLE b c = true → ledgerLE a c = true := by
  rw [ledgerLE_iff, ledgerLE_iff, ledgerLE_iff]
  rintro (h1 | ⟨e1, i1⟩) (h2 | ⟨e2, i2⟩)
  · exact Or.inl (lt_trans h1 h2)
  · exact Or.inl (e2 ▸ h1)
  · exact Or.inl (e1 ▸ h2)
  · exact Or.inr ⟨e1.trans e2, le_trans i1 i2⟩

theorem ledgerLE_total (a b : LTx) :
    ledgerLE a b = true ∨ ledgerLE b a = true := by
  rw [ledgerLE_iff, ledgerLE_iff]
  rcases lt_trichotomy a.date b.date with h | h | h
  · exact Or.inl (Or.inl h)
  · rcases le_total a.id b.id with h2 | h2
    · exact Or.inl (Or.inr ⟨h, h2⟩)
    · exact Or.inr (Or.inr ⟨h.symm, h2⟩)
  · exact Or.inr (Or.inl h)

theorem applyRun_length (b : ℚ) (ts : List LTx) :
    (applyRun b ts).1.length = ts.length := by
  induction ts generalizing b with
  | nil => rfl
  | cons t ts ih => simp [applyRun, ih]

theorem applyRun_mem {b : ℚ} {ts : List LTx} {y : LTx}
    (hy : y ∈ (applyRun b ts).1) :
    ∃ t ∈ ts, y.date = t.date ∧ y.id = t.id ∧
      y.income = t.income ∧ y.expense = t.expense := by
  induction ts generalizing b with
  | nil => simp [applyRun] at hy
  | cons t ts ih =>
    simp only [applyRun, List.mem_cons] at hy
    rcases hy with rfl | hy
    · exact ⟨t, List.mem_cons_self t ts, rfl, rfl, rfl, rfl⟩
    · rcases ih hy with ⟨t', ht', h⟩
      exact ⟨t', List.mem_cons_of_mem t ht', h⟩

theorem applyRun_pairwise {R : LTx → LTx → Prop}
    (hcong : ∀ a a' b b', a.date = a'.date → a.id = a'.id →
      b.date = b'.date → b.id = b'.id → R a b → R a' b')
    {ts : List LTx} (b : ℚ) (h : ts.Pairwise R) :
    (applyRun b ts).1.Pairwise R := by
  induction ts generalizing b with
  | nil => exact List.Pairwise.nil
  | cons t ts ih =>
    rcases List.pairwise_cons.mp h with ⟨hhead, htail⟩
    refine List.pairwise_cons.mpr ⟨?_, ih _ htail⟩
    intro y hy
    rcases applyRun_mem hy with ⟨t', ht', hd, hi, _, _⟩
    exact hcong t _ t' y rfl rfl hd.symm hi.symm (hhead t' ht')

theorem applyRun_applyRun (b : ℚ) (ts : List LTx) :
    applyRun b ((applyRun b ts).1) = applyRun b ts := by
  induction ts generalizing b with
  | nil => rfl
  | cons t ts ih => simp [applyRun, ih]

theorem applyRun_snd (b : ℚ) (ts : List LTx) :
    (applyRun b ts).2 =
      b + ((ts.map (·.income)).sum - (ts.map (·.expense)).sum) := by
  induction ts generalizing b with
  | nil => simp [applyRun]
  | cons t ts ih =>
    simp only [applyRun, List.map_cons, List.sum_cons]
    rw [ih]
    ring

theorem applyRun_map_income (b : ℚ) (ts : List LTx) :
    (applyRun b ts).1.map (·.income) = ts.map (·.income) := by
  induction ts generalizing b with
  | nil => rfl
  | cons t ts ih => simp [applyRun, ih]

theorem applyRun_map_expense (b : ℚ) (ts : List LTx) :
    (applyRun b ts).1.map (·.expense) = ts.map (·.expense) := by
  induction ts generalizing b with
  | nil => rfl
  | cons t ts ih => simp [applyRun, ih]

theorem applyRun_last (b : ℚ) (ts : List LTx)
    (h : (applyRun b ts).1 ≠ []) :
    ((applyRun b ts).1.getLast h).remaining_balance = (applyRun b ts).2 := by
  induction ts generalizing b with
  | nil => simp [applyRun] at h
  | cons t ts ih =>
    cases ts with
    | nil => rfl
    | cons u ts' =>
      have hne : (applyRun (b + t.income - t.expense) (u :: ts')).1 ≠ [] := by
        intro hc
        have := applyRun_length (b + t.income - t.expense) (u :: ts')
        rw [hc] at this
        simp at this
      show ((({ t with remaining_balance := b + t.income - t.expense } : LTx) ::
        (applyRun (b + t.income - t.expense) (u :: ts')).1).getLast _).remaining_balance = _
      rw [List.getLast_cons hne]
      have hsnd : (applyRun b (t :: u :: ts')).2 =
          (applyRun (b + t.income - t.expense) (u :: ts')).2 := rfl
      rw [hsnd]
      exact ih _ hne

/-- **C1.** The ledger recalculation sorts the records by
`(date, identifier)` ascending; it is idempotent — rerunning it on its
own output reproduces exactly the same per-record running balances and
the same totals; and on every invocation the resulting current balance
equals `opening + total_income - total_expense` exactly and equals the
running balance written onto the last record in sort order. -/
theorem c1_ledger_recalculation (opening : ℚ) (txs : List LTx) :
    (recalculate_remaining_balances opening txs).1.Pairwise
      (fun a b => a.date < b.date ∨ (a.date = b.date ∧ a.id ≤ b.id)) ∧
    recalculate_remaining_balances opening
        ((recalculate_remaining_balances opening txs).1) =
      recalculate_remaining_balances opening txs ∧
    recalculate_balance opening
        ((recalculate_remaining_balances opening txs).1) =
      recalculate_balance opening txs ∧
    (recalculate_remaining_balances opening txs).2 =
      opening + (recalculate_balance opening txs).total_income -
        (recalculate_balance opening txs).total_expense ∧
    ∀ h : (recalculate_remaining_balances opening txs).1 ≠ [],
      ((recalculate_remaining_balances opening txs).1.getLast h).remaining_balance =
        (recalculate_remaining_balances opening txs).2 := by
  have hcong : ∀ a a' b b' : LTx, a.date = a'.date → a.id = a'.id →
      b.date = b'.date → b.id = b'.id →
      ledgerLE a b = true → ledgerLE a' b' = true := by
    intro a a' b b' hd hi hd' hi' hr
    rw [ledgerLE_iff] at hr ⊢
    rw [← hd, ← hi, ← hd', ← hi']
    exact hr
  have hsorted : (sortLE ledgerLE txs).Pairwise (fun a b => ledgerLE a b = true) :=
    sortLE_sorted ledgerLE_trans ledgerLE_total txs
  have hout : ((applyRun opening (sortLE ledgerLE txs)).1).Pairwise
      (fun a b => ledgerLE a b = true) :=
    applyRun_pairwise hcong opening hsorted
  have hmi : ((applyRun opening (sortLE ledgerLE txs)).1.map (·.income)).sum =
      (txs.map (·.income)).sum := by
    rw [applyRun_map_income]
    exact List.Perm.sum_eq ((sortLE_perm ledgerLE txs).map (·.income))
  have hme : ((applyRun opening (sortLE ledgerLE txs)).1.map (·.expense)).sum =
      (txs.map (·.expense)).sum := by
    rw [applyRun_map_expense]
    exact List.Perm.sum_eq ((sortLE_perm ledgerLE txs).map (·.expense))
  refine ⟨?_, ?_, ?_, ?_, ?_⟩
  · exact hout.imp fun h => (ledgerLE_iff _ _).mp h
  · show recalculate_remaining_balances opening
        ((applyRun opening (sortLE ledgerLE txs)).1) = _
    unfold recalculate_remaining_balances
    rw [sortLE_of_sorted hout]
    exact applyRun_applyRun opening (sortLE ledgerLE txs)
  · unfold recalculate_remaining_balances recalculate_balance
    rw [hmi, hme]
  · unfold recalculate_remaining_balances recalculate_balance
    rw [applyRun_snd]
    have hpi := List.Perm.sum_eq ((sortLE_perm ledgerLE txs).map (·.income))
    have hpe := List.Perm.sum_eq ((sortLE_perm ledgerLE txs).map (·.expense))
    dsimp only
    rw [hpi, hpe]
    ring
  · intro h
    exact applyRun_last opening (sortLE ledgerLE txs) h

/-- Helper: the spec's §8 ledger scenario, fully evaluated — opening
`1000`, an expense of `200` on day 1 and an income of `500` on day 2
give running balances `800` and `1300` and current balance `1300`. -/
theorem demoLedger_eval :
    recalculate_remaining_balances 1000 demoLedger =
      ([⟨1, "2024-01-01", 0, 200, 800⟩, ⟨2, "2024-01-02", 500, 0, 1300⟩], 1300) := by
  unfold recalculate_remaining_balances
  rw [show sortLE ledgerLE demoLedger =
      [⟨1, "2024-01-01", 0, 200, 0⟩, ⟨2, "2024-01-02", 500, 0, 0⟩] from by decide]
  norm_num [applyRun]

/-- **C1 witness.** On the §8 scenario the balance written onto the
last record in sort order equals the recomputed current balance. -/
theorem c1_witness :
    ((recalculate_remaining_balances 1000 demoLedger).1.getLast
        (by rw [demoLedger_eval]; simp)).remaining_balance =
      (recalculate_remaining_balances 1000 demoLedger).2 :=
  (c1_ledger_recalculation 1000 demoLedger).2.2.2.2 _

/-! ### Categorizer lemmas -/

theorem kwScore_zero {vl comb : List Char} {kws : List String}
    (h : ∀ kw ∈ kws, containsSub vl (toLowerL kw.toList) = false ∧
      containsSub comb (toLowerL kw.toList) = false) :
    kwScore vl comb kws = (0, 0) := by
  induction kws with
  | nil => rfl
  | cons k ks ih =>
    have hk := h k (List.mem_cons_self k ks)
    have hrest : ∀ kw ∈ ks, containsSub vl (toLowerL kw.toList) = false ∧
        containsSub comb (toLowerL kw.toList) = false :=
      fun kw hkw => h kw (List.mem_cons_of_mem k hkw)
    unfold kwScore at ih ⊢
    rw [List.foldl_cons]
    rw [show kwStep vl comb (0, 0) k = (0, 0) from by
      dsimp only [kwStep]
      rw [hk.1, hk.2]
      rfl]
    exact ih hrest

theorem foldl_kwStep_snd (vl comb : List Char) (kws : List String)
    (sm : Nat × Nat) :
    (kws.foldl (kwStep vl comb) sm).2 = sm.2 + (kwScore vl comb kws).2 := by
  induction kws generalizing sm with
  | nil => simp [kwScore]
  | cons k ks ih =>
    unfold kwScore
    rw [List.foldl_cons, List.foldl_cons, ih, ih (kwStep vl comb (0, 0) k)]
    have hstep : ∀ p : Nat × Nat, (kwStep vl comb p k).2 =
        p.2 + (kwStep vl comb (0, 0) k).2 := by
      intro p
      dsimp only [kwStep]
      cases hb1 : containsSub vl (toLowerL k.toList) with
      | true => simp
      | false =>
        cases hb2 : containsSub comb (toLowerL k.toList) with
        | true => simp
        | false => simp
    rw [hstep sm]
    omega

theorem kwScore_snd_pos {vl comb : List Char} {kws : List String} {kw : String}
    (hkw : kw ∈ kws) (hc : containsSub comb (toLowerL kw.toList) = true) :
    0 < (kwScore vl comb kws).2 := by
  induction kws with
  | nil => cases hkw
  | cons k ks ih =>
    unfold kwScore
    rw [List.foldl_cons, foldl_kwStep_snd]
    rcases List.mem_cons.mp hkw with rfl | hkw'
    · have h1 : 0 < (kwStep vl comb (0, 0) kw).2 := by
        dsimp only [kwStep]
        cases hb1 : containsSub vl (toLowerL kw.toList) with
        | true => simp
        | false => rw [hc]; simp
      omega
    · have h2 := ih hkw'
      omega

theorem catStep_append (vl comb : List Char) (acc : List (String × Nat × Nat))
    (ck : String × List String) :
    catStep vl comb acc ck = acc ++ catStep vl comb [] ck := by
  unfold catStep
  by_cases h1 : ck.1 = "Other"
  · simp [h1]
  · by_cases h2 : (kwScore vl comb ck.2).2 > 0
    · simp [h1, h2]
    · simp [h1, h2]

theorem foldl_catStep_append (vl comb : List Char)
    (table : List (String × List String)) (acc : List (String × Nat × Nat)) :
    table.foldl (catStep vl comb) acc = acc ++ table.foldl (catStep vl comb) [] := by
  induction table generalizing acc with
  | nil => simp
  | cons c cs ih =>
    rw [List.foldl_cons, List.foldl_cons, ih (catStep vl comb acc c),
      ih (catStep vl comb [] c), catStep_append, List.append_assoc]

theorem categoryScores_nil {vendor notes : String}
    (h : ∀ ck ∈ CATEGORY_KEYWORDS, ∀ kw ∈ ck.2,
      containsSub (toLowerL vendor.toList) (toLowerL kw.toList) = false ∧
      containsSub (combinedText vendor notes) (toLowerL kw.toList) = false) :
    categoryScores vendor notes = [] := by
  unfold categoryScores
  have haux : ∀ (table : List (String × List String)),
      (∀ ck ∈ table, ∀ kw ∈ ck.2,
        containsSub (toLowerL vendor.toList) (toLowerL kw.toList) = false ∧
        containsSub (combinedText vendor notes) (toLowerL kw.toList) = false) →
      table.foldl (catStep (toLowerL vendor.toList) (combinedText vendor notes)) [] = [] := by
    intro table
    induction table with
    | nil => intro _; rfl
    | cons c cs ih =>
      intro hc
      rw [List.foldl_cons]
      have hz : kwScore (toLowerL vendor.toList) (combinedText vendor notes) c.2 = (0, 0) :=
        kwScore_zero (hc c (List.mem_cons_self c cs))
      have hstep : catStep (toLowerL vendor.toList) (combinedText vendor notes) [] c = [] := by
        unfold catStep
        rw [hz]
        simp
      rw [hstep]
      exact ih fun ck hck => hc ck (List.mem_cons_of_mem c hck)
  exact haux CATEGORY_KEYWORDS h

theorem categoryScores_ne_nil {vendor notes : String}
    {ck : String × List String} {kw : String}
    (hck : ck ∈ CATEGORY_KEYWORDS) (hother : ck.1 ≠ "Other") (hkw : kw ∈ ck.2)
    (hc : containsSub (combinedText vendor notes) (toLowerL kw.toList) = true) :
    categoryScores vendor notes ≠ [] := by
  unfold categoryScores
  have haux : ∀ (table : List (String × List String)),
      ck ∈ table →
      table.foldl (catStep (toLowerL vendor.toList) (combinedText vendor notes)) [] ≠ [] := by
    intro table
    induction table with
    | nil => intro h; cases h
    | cons c cs ih =>
      intro hmem
      rw [List.foldl_cons,
        foldl_catStep_append (toLowerL vendor.toList) (combinedText vendor notes) cs]
      rcases List.mem_cons.mp hmem with heq | hmem'
      · have hother2 : c.1 ≠ "Other" := heq ▸ hother
        have hpos : 0 < (kwScore (toLowerL vendor.toList) (combinedText vendor notes) c.2).2 :=
          heq ▸ kwScore_snd_pos hkw hc
        have hstep : catStep (toLowerL vendor.toList) (combinedText vendor notes) [] c =
            [(c.1, kwScore (toLowerL vendor.toList) (combinedText vendor notes) c.2)] := by
          dsimp only [catStep]
          rw [if_neg hother2, if_pos hpos]
          rfl
        rw [hstep]
        simp
      · intro hcontra
        exact ih hmem' (List.append_eq_nil.mp hcontra).2
  exact haux CATEGORY_KEYWORDS hck

theorem maxByKey_spec (x : String × Nat × Nat) (xs : List (String × Nat × Nat)) :
    (maxByKey x xs = x ∨ maxByKey x xs ∈ xs) ∧
    (x.2.1 < (maxByKey x xs).2.1 ∨
      (x.2.1 = (maxByKey x xs).2.1 ∧ x.2.2 ≤ (maxByKey x xs).2.2)) ∧
    ∀ y ∈ xs, y.2.1 < (maxByKey x xs).2.1 ∨
      (y.2.1 = (maxByKey x xs).2.1 ∧ y.2.2 ≤ (maxByKey x xs).2.2) := by
  induction xs generalizing x with
  | nil =>
    refine ⟨Or.inl rfl, Or.inr ⟨rfl, le_refl _⟩, ?_⟩
    intro y hy
    cases hy
  | cons c cs ih =>
    have hfold : maxByKey x (c :: cs) =
        maxByKey (if x.2.1 < c.2.1 ∨ (x.2.1 = c.2.1 ∧ x.2.2 < c.2.2) then c else x) cs := rfl
    by_cases hlt : x.2.1 < c.2.1 ∨ (x.2.1 = c.2.1 ∧ x.2.2 < c.2.2)
    · rw [hfold, if_pos hlt]
      rcases ih c with ⟨hmem, hself, hall⟩
      refine ⟨?_, ?_, ?_⟩
      · rcases hmem with h | h
        · exact Or.inr (by rw [h]; exact List.mem_cons_self c cs)
        · exact Or.inr (List.mem_cons_of_mem c h)
      · omega
      · intro y hy
        rcases List.mem_cons.mp hy with rfl | hy'
        · exact hself
        · exact hall y hy'
    · rw [hfold, if_neg hlt]
      rcases ih x with ⟨hmem, hself, hall⟩
      refine ⟨?_, hself, ?_⟩
      · rcases hmem with h | h
        · exact Or.inl h
        · exact Or.inr (List.mem_cons_of_mem c h)
      · intro y hy
        rcases List.mem_cons.mp hy with rfl | hy'
        · omega
        · exact hall y hy'

/-- **C6.** If no keyword of any category's list occurs as a substring
of the (lower-cased) vendor text or of the combined vendor+notes text,
`categorize` returns `("Other", 0.3)`; otherwise it returns a category
whose `(score, matchCount)` pair is maximal among the matched
categories (the first such, by Python `max`), with confidence
`min(0.95, 0.6 + 0.1*matches + 0.01*score)`. -/
theorem c6_categorize (vendor notes : String) :
    ((∀ ck ∈ CATEGORY_KEYWORDS, ∀ kw ∈ ck.2,
        containsSub (toLowerL vendor.toList) (toLowerL kw.toList) = false ∧
        containsSub (combinedText vendor notes) (toLowerL kw.toList) = false) →
      categorize vendor notes = ("Other", 3/10)) ∧
    ((∃ ck ∈ CATEGORY_KEYWORDS, ck.1 ≠ "Other" ∧ ∃ kw ∈ ck.2,
        containsSub (combinedText vendor notes) (toLowerL kw.toList) = true) →
      ∃ best ∈ categoryScores vendor notes,
        (categorize vendor notes).1 = best.1 ∧
        (∀ y ∈ categoryScores vendor notes,
          y.2.1 < best.2.1 ∨ (y.2.1 = best.2.1 ∧ y.2.2 ≤ best.2.2)) ∧
        (categorize vendor notes).2 =
          min (95/100) (6/10 + (best.2.2 : ℚ) * (1/10) + (best.2.1 : ℚ) * (1/100))) := by
  constructor
  · intro h
    unfold categorize
    rw [categoryScores_nil h]
  · rintro ⟨ck, hck, hother, kw, hkw, hc⟩
    have hne := categoryScores_ne_nil hck hother hkw hc
    rcases hx : categoryScores vendor notes with _ | ⟨x, xs⟩
    · exact absurd hx hne
    · rcases maxByKey_spec x xs with ⟨hmem, hself, hall⟩
      refine ⟨maxByKey x xs, ?_, ?_, ?_, ?_⟩
      · rcases hmem with h | h
        · rw [h]; exact List.mem_cons_self x xs
        · exact List.mem_cons_of_mem x h
      · unfold categorize
        rw [hx]
      · intro y hy
        rcases List.mem_cons.mp hy with rfl | hy'
        · exact hself
        · exact hall y hy'
      · unfold categorize
        rw [hx]

/-- **C6 witness.** A vendor/notes pair matching no keyword is
categorized `("Other", 0.3)`. -/
theorem c6_witness : categorize "zzz" "" = ("Other", 3/10) :=
  (c6_categorize "zzz" "").1 (by decide)

/-! ### Date-parser lemmas -/

theorem splitSep_ne_nil (sep : Char) (l : List Char) : splitSep sep l ≠ [] := by
  cases l with
  | nil => simp [splitSep]
  | cons c cs =>
    unfold splitSep
    by_cases h : c = sep
    · simp [h]
    · rw [if_neg h]
      cases hs : splitSep sep cs <;> simp

theorem joinSep_splitSep (sep : Char) (l : List Char) :
    joinSep sep (splitSep sep l) = l := by
  induction l with
  | nil => rfl
  | cons c cs ih =>
    unfold splitSep
    by_cases h : c = sep
    · rw [if_pos h]
      rcases hs : splitSep sep cs with _ | ⟨g, gs⟩
      · exact absurd hs (splitSep_ne_nil sep cs)
      · rw [hs] at ih
        show ([] : List Char) ++ sep :: joinSep sep (g :: gs) = c :: cs
        rw [List.nil_append, ih, h]
    · rw [if_neg h]
      rcases hs : splitSep sep cs with _ | ⟨g, gs⟩
      · exact absurd hs (splitSep_ne_nil sep cs)
      · rw [hs] at ih
        cases gs with
        | nil =>
          show c :: g = c :: cs
          rw [show joinSep sep [g] = g from rfl] at ih
          rw [ih]
        | cons g2 gs2 =>
          show (c :: g) ++ sep :: joinSep sep (g2 :: gs2) = c :: cs
          rw [List.cons_append]
          congr 1

theorem splitSep_no_sep {sep : Char} {l : List Char}
    (h : ∀ c ∈ l, c ≠ sep) : splitSep sep l = [l] := by
  induction l with
  | nil => rfl
  | cons c cs ih =>
    unfold splitSep
    rw [if_neg (h c (List.mem_cons_self c cs))]
    rw [ih fun x hx => h x (List.mem_cons_of_mem c hx)]

theorem compN_digits {hi : Nat} {l : List Char} {v : Nat}
    (h : compN hi l = some v) : ∀ c ∈ l, c.isDigit = true := by
  unfold compN at h
  split_ifs at h with hc
  exact fun c hcm => List.all_eq_true.mp hc.2.1 c hcm

theorem compY_digits {l : List Char} {v : Nat}
    (h : compY l = some v) : ∀ c ∈ l, c.isDigit = true := by
  unfold compY at h
  split_ifs at h with hc
  exact fun c hcm => List.all_eq_true.mp hc.2 c hcm

theorem fmtDmySlash_chars {l : List Char} {d : PDate}
    (h : fmtDmySlash l = some d) : ∀ ch ∈ l, ch.isDigit = true ∨ ch = '/' := by
  unfold fmtDmySlash fmtSep3 at h
  rcases hs : splitSep '/' l with _ | ⟨a, _ | ⟨b, _ | ⟨c, _ | ⟨e, rest⟩⟩⟩⟩ <;> rw [hs] at h
  · simp at h
  · simp at h
  · simp at h
  · dsimp only at h
    rcases ha : compD a with _ | va <;> rw [ha] at h
    · simp at h
    rcases hb : compM b with _ | vb <;> rw [hb] at h
    · simp at h
    rcases hc : compY c with _ | vc <;> rw [hc] at h
    · simp at h
    have hl : l = a ++ '/' :: (b ++ '/' :: c) := by
      have hj := joinSep_splitSep '/' l
      rw [hs] at hj
      exact hj.symm
    intro ch hch
    rw [hl] at hch
    simp only [List.mem_append, List.mem_cons] at hch
    rcases hch with hina | hsep | hinb | hsep | hinc
    · exact Or.inl (compN_digits ha ch hina)
    · exact Or.inr hsep
    · exact Or.inl (compN_digits hb ch hinb)
    · exact Or.inr hsep
    · exact Or.inl (compY_digits hc ch hinc)
  · simp at h

theorem fmtYmdDash_of_slash {l : List Char}
    (hch : ∀ ch ∈ l, ch.isDigit = true ∨ ch = '/') : fmtYmdDash l = none := by
  have hns : ∀ c ∈ l, c ≠ '-' := by
    intro c hcm hcontra
    subst hcontra
    rcases hch '-' hcm with hd | hs
    · simp at hd
    · cases hs
  unfold fmtYmdDash fmtSep3
  rw [splitSep_no_sep hns]

theorem firstFormat_none {ps : List (List Char → Option PDate)} {l : List Char}
    (h : ∀ f ∈ ps, f l = none) : firstFormat ps l = none := by
  induction ps with
  | nil => rfl
  | cons p rest ih =>
    unfold firstFormat
    rw [h p (List.mem_cons_self p rest)]
    exact ih fun f hf => h f (List.mem_cons_of_mem p hf)

theorem firstFormat_cons_none {p : List Char → Option PDate}
    {ps : List (List Char → Option PDate)} {l : List Char} (h : p l = none) :
    firstFormat (p :: ps) l = firstFormat ps l := by
  show (match p l with | some d => some d | none => firstFormat ps l) = firstFormat ps l
  rw [h]

theorem firstFormat_cons_some {p : List Char → Option PDate}
    {ps : List (List Char → Option PDate)} {l : List Char} {d : PDate}
    (h : p l = some d) : firstFormat (p :: ps) l = some d := by
  show (match p l with | some d => some d | none => firstFormat ps l) = some d
  rw [h]

/-- **C9.** Ambiguity resolution by format order: a string that parses
under both `%d/%m/%Y` and `%m/%d/%Y` (an ambiguous slash date with
both leading components at most 12) is returned under `%d/%m/%Y`, the
first matching format in the fixed try order; and a string matching no
format on which the final ISO-8601 fallback also fails yields `none`,
not an exception. -/
theorem c9_parse_date_order :
    (∀ (s : String) (d d' : PDate),
      fmtDmySlash (trimL s.toList) = some d →
      fmtMdySlash (trimL s.toList) = some d' →
      parse_date s = some d) ∧
    (∀ s : String,
      (∀ f ∈ dateFormats, f (trimL s.toList) = none) →
      isoFallback (trimL s.toList) = none →
      parse_date s = none) := by
  constructor
  · intro s d d' h1 _h2
    by_cases hs : s = ""
    · rw [hs] at h1
      rw [show fmtDmySlash (trimL "".toList) = none from by decide] at h1
      cases h1
    · have hf1 : fmtYmdDash (trimL s.toList) = none :=
        fmtYmdDash_of_slash (fmtDmySlash_chars h1)
      have hff : firstFormat dateFormats (trimL s.toList) = some d := by
        unfold dateFormats
        rw [firstFormat_cons_none hf1, firstFormat_cons_some h1]
      unfold parse_date
      rw [if_neg hs]
      dsimp only
      rw [hff]
  · intro s hall hiso
    by_cases hs : s = ""
    · unfold parse_date
      rw [if_pos hs]
    · unfold parse_date
      rw [if_neg hs]
      dsimp only
      rw [firstFormat_none hall]
      exact hiso

/-- **C9 witness.** `"05/06/2024"` is valid under both slash formats
and parses as 5 June 2024 (day first); `"hello!"` matches nothing and
yields `none`. -/
theorem c9_witness :
    parse_date "05/06/2024" = some ⟨2024, 6, 5⟩ ∧
    parse_date "hello!" = none := by
  constructor
  · exact c9_parse_date_order.1 "05/06/2024" ⟨2024, 6, 5⟩ ⟨2024, 5, 6⟩
      (by decide) (by decide)
  · refine c9_parse_date_order.2 "hello!" ?_ (by decide)
    intro f hf
    simp only [dateFormats, List.mem_cons, List.not_mem_nil, or_false] at hf
    rcases hf with rfl | rfl | rfl | rfl | rfl | rfl | rfl | rfl | rfl | rfl | rfl | rfl <;>
      decide

/-! ### Subscription-rule lemmas -/

theorem exMapM_ok_mem_left {f : α → Except ε β} {l : List α} {out : List β}
    (h : exMapM f l = .ok out) {a : α} (ha : a ∈ l) : ∃ b ∈ out, f a = .ok b := by
  induction l generalizing out with
  | nil => cases ha
  | cons x xs ih =>
    unfold exMapM at h
    rcases hx : f x with e | b <;> rw [hx] at h
    · cases h
    · rcases hrest : exMapM f xs with e | bs <;> rw [hrest] at h
      · cases h
      · rcases h with ⟨⟩
        rcases List.mem_cons.mp ha with rfl | ha'
        · exact ⟨b, List.mem_cons_self b bs, hx⟩
        · rcases ih hrest ha' with ⟨b', hb', hf'⟩
          exact ⟨b', List.mem_cons_of_mem b hb', hf'⟩

theorem exMapM_ok_mem_right {f : α → Except ε β} {l : List α} {out : List β}
    (h : exMapM f l = .ok out) {b : β} (hb : b ∈ out) : ∃ a ∈ l, f a = .ok b := by
  induction l generalizing out with
  | nil =>
    unfold exMapM at h
    rcases h with ⟨⟩
    cases hb
  | cons x xs ih =>
    unfold exMapM at h
    rcases hx : f x with e | b' <;> rw [hx] at h
    · cases h
    · rcases hrest : exMapM f xs with e | bs <;> rw [hrest] at h
      · cases h
      · rcases h with ⟨⟩
        rcases List.mem_cons.mp hb with rfl | hb'
        · exact ⟨x, List.mem_cons_self x xs, hx⟩
        · rcases ih hrest hb' with ⟨a', ha', hf'⟩
          exact ⟨a', List.mem_cons_of_mem x ha', hf'⟩

theorem mem_firstDedup [DecidableEq α] {x : α} {l : List α} :
    x ∈ firstDedup l ↔ x ∈ l := by
  induction l using firstDedup.induct with
  | case1 => simp [firstDedup]
  | case2 a t ih =>
    unfold firstDedup
    simp only [List.mem_cons, ih, List.mem_filter, decide_eq_true_iff]
    constructor
    · rintro (rfl | ⟨hx, _⟩)
      · exact Or.inl rfl
      · exact Or.inr hx
    · rintro (rfl | hx)
      · exact Or.inl rfl
      · by_cases hxa : x = a
        · exact Or.inl hxa
        · exact Or.inr ⟨hx, hxa⟩

/-- Inversion of the per-group body: an emitted alert certifies the
subscription condition and carries all the group's transaction ids. -/
theorem subsGroupCheck_ok_some {v : String} {g : List SubTx} {a : RiskAlert}
    (h : subsGroupCheck v g = .ok (some a)) :
    subsCond g ∧ a.transaction_ids = g.map (·.id) := by
  unfold subsGroupCheck at h
  by_cases h3 : g.length < 3
  · rw [if_pos h3] at h
    rcases h with ⟨⟩
  rw [if_neg h3] at h
  by_cases hded : (g.map (·.amount)).dedup.length = 1
  · rw [if_pos hded] at h
    rcases hdm : exMapM (fun t => strptimeYmd t.date) g with e | ds <;> rw [hdm] at h
    · cases h
    · dsimp only at h
      by_cases havg :
        25 ≤ ((pairDiffs (sortLE (fun a b => decide (a ≤ b)) (ds.map toOrd))).sum : ℚ) /
            ((pairDiffs (sortLE (fun a b => decide (a ≤ b)) (ds.map toOrd))).length : ℚ) ∧
          ((pairDiffs (sortLE (fun a b => decide (a ≤ b)) (ds.map toOrd))).sum : ℚ) /
            ((pairDiffs (sortLE (fun a b => decide (a ≤ b)) (ds.map toOrd))).length : ℚ) ≤ 35
      · rw [if_pos havg] at h
        rcases h with ⟨⟩
        refine ⟨⟨Nat.le_of_not_lt h3, hded, ?_⟩, rfl⟩
        rw [hdm]
        exact havg
      · rw [if_neg havg] at h
        rcases h with ⟨⟩
  · rw [if_neg hded] at h
    rcases h with ⟨⟩

/-- The converse: the subscription condition forces the alert. -/
theorem subsGroupCheck_of_cond {v : String} {g : List SubTx}
    (hc : subsCond g) :
    ∃ a : RiskAlert, subsGroupCheck v g = .ok (some a) ∧
      a.transaction_ids = g.map (·.id) := by
  rcases hc with ⟨h3, hded, hrest⟩
  rcases hdm : exMapM (fun t => strptimeYmd t.date) g with e | ds <;> rw [hdm] at hrest
  · exact hrest.elim
  · dsimp only at hrest
    have hcheck : subsGroupCheck v g = .ok (some
        { severity := "low"
          type := "subscription_detected"
          message := "Potential monthly subscription detected for " ++ v ++
            " with amount " ++ toString ((g.map (·.amount)).headD 0)
          transaction_ids := g.map (·.id)
          recommended_action := "Confirm if this is a subscription and categorize accordingly" }) := by
      unfold subsGroupCheck
      rw [if_neg (Nat.not_lt.mpr h3), if_pos hded, hdm]
      dsimp only
      rw [if_pos hrest]
    exact ⟨_, hcheck, rfl⟩

/-- **C7.** Whenever the subscription rule completes (its unguarded
`strptime` raises no `ValueError`), an alert carrying the transaction
ids of all of vendor `v`'s transactions is emitted iff `v` has at
least three transactions, all of an identical amount, whose average
day interval between consecutive dates in sorted order lies in
`[25, 35]` (transaction ids are unique, per the data model). -/
theorem c7_subscription_iff (txs : List SubTx) (v : String)
    (out : List RiskAlert)
    (hids : (txs.map (·.id)).Nodup)
    (hok : detect_subscriptions txs = .ok out) :
    (∃ a ∈ out,
        a.transaction_ids = (txs.filter fun t => t.vendor == v).map (·.id)) ↔
      subsCond (txs.filter fun t => t.vendor == v) := by
  unfold detect_subscriptions at hok
  rcases hm : exMapM (fun v' => subsGroupCheck v' (txs.filter fun t => t.vendor == v'))
      (firstDedup (txs.map (·.vendor))) with e | opts <;> rw [hm] at hok
  · cases hok
  rcases hok with ⟨⟩
  constructor
  · rintro ⟨a, ha, haid⟩
    rcases List.mem_filterMap.mp ha with ⟨o, ho, hoa⟩
    have hoa' : o = some a := hoa
    rcases exMapM_ok_mem_right hm ho with ⟨v', hv', hfv'⟩
    rw [hoa'] at hfv'
    rcases subsGroupCheck_ok_some hfv' with ⟨hcond', hids'⟩
    have heq : ((txs.filter fun t => t.vendor == v').map (·.id)) =
        ((txs.filter fun t => t.vendor == v).map (·.id)) := by
      rw [← hids', haid]
    have hlen : 3 ≤ (txs.filter fun t => t.vendor == v').length := hcond'.1
    rcases hg' : txs.filter (fun t => t.vendor == v') with _ | ⟨t', rest'⟩
    · rw [hg'] at hlen
      simp at hlen
    rcases hg : txs.filter (fun t => t.vendor == v) with _ | ⟨t0, rest0⟩
    · rw [hg', hg] at heq
      simp at heq
    rw [hg', hg] at heq
    simp only [List.map_cons, List.cons.injEq] at heq
    have ht'f : t' ∈ txs.filter (fun t => t.vendor == v') := by
      rw [hg']
      exact List.mem_cons_self t' rest'
    have ht0f : t0 ∈ txs.filter (fun t => t.vendor == v) := by
      rw [hg]
      exact List.mem_cons_self t0 rest0
    have ht'm := List.mem_filter.mp ht'f
    have ht0m := List.mem_filter.mp ht0f
    have htt : t' = t0 :=
      List.inj_on_of_nodup_map hids ht'm.1 ht0m.1 heq.1
    have hveq : v' = v := by
      have hbv' : t'.vendor = v' := by simpa using ht'm.2
      have hbv : t0.vendor = v := by simpa using ht0m.2
      rw [← hbv', htt, hbv]
    rw [← hveq]
    exact hcond'
  · intro hc
    have hlen : 3 ≤ (txs.filter fun t => t.vendor == v).length := hc.1
    rcases hg : txs.filter (fun t => t.vendor == v) with _ | ⟨t0, rest0⟩
    · rw [hg] at hlen
      simp at hlen
    have ht0f : t0 ∈ txs.filter (fun t => t.vendor == v) := by
      rw [hg]
      exact List.mem_cons_self t0 rest0
    have ht0m := List.mem_filter.mp ht0f
    have hvmem : v ∈ firstDedup (txs.map (·.vendor)) := by
      rw [mem_firstDedup]
      refine List.mem_map.mpr ⟨t0, ht0m.1, ?_⟩
      simpa using ht0m.2
    rcases exMapM_ok_mem_left hm hvmem with ⟨o, ho, hfo⟩
    rcases subsGroupCheck_of_cond (v := v) hc with ⟨a, hcheck, haid⟩
    have hosome : o = some a := by
      have htr := hfo.symm.trans hcheck
      rcases htr with ⟨⟩
      rfl
    subst hosome
    exact ⟨a, List.mem_filterMap.mpr ⟨some a, ho, rfl⟩, haid⟩

/-- Helper: the Netflix group (three transactions of amount 1200,
spaced 30 and 31 days) satisfies the subscription condition. -/
theorem subNetflix_cond : subsCond subNetflix := by
  refine ⟨by decide, by decide, ?_⟩
  rw [show exMapM (fun t => strptimeYmd t.date) subNetflix =
      .ok [⟨2024, 1, 1⟩, ⟨2024, 1, 31⟩, ⟨2024, 3, 2⟩] from rfl]
  dsimp only
  rw [show pairDiffs (sortLE (fun a b => decide (a ≤ b))
      (([⟨2024, 1, 1⟩, ⟨2024, 1, 31⟩, ⟨2024, 3, 2⟩] : List PDate).map toOrd)) =
      [30, 31] from by decide]
  norm_num

/-- Helper: the subscription rule on the Netflix group, evaluated. -/
theorem subNetflix_detect :
    detect_subscriptions subNetflix = .ok [subNetflixAlert] := by
  have hcheck : subsGroupCheck "Netflix" subNetflix = .ok (some subNetflixAlert) := by
    unfold subsGroupCheck
    rw [if_neg (by decide : ¬ subNetflix.length < 3), if_pos (by decide :
      (subNetflix.map (·.amount)).dedup.length = 1)]
    rw [show exMapM (fun t => strptimeYmd t.date) subNetflix =
        .ok [⟨2024, 1, 1⟩, ⟨2024, 1, 31⟩, ⟨2024, 3, 2⟩] from rfl]
    dsimp only
    rw [show pairDiffs (sortLE (fun a b => decide (a ≤ b))
        (([⟨2024, 1, 1⟩, ⟨2024, 1, 31⟩, ⟨2024, 3, 2⟩] : List PDate).map toOrd)) =
        [30, 31] from by decide]
    rw [if_pos (by norm_num : (25:ℚ) ≤ (([30, 31] : List ℤ).sum : ℚ) / (([30, 31] : List ℤ).length : ℚ) ∧
      (([30, 31] : List ℤ).sum : ℚ) / (([30, 31] : List ℤ).length : ℚ) ≤ 35)]
    rfl
  unfold detect_subscriptions
  rw [show firstDedup (subNetflix.map (·.vendor)) = ["Netflix"] from by
    simp [subNetflix, firstDedup]]
  have hex : exMapM
      (fun v' => subsGroupCheck v' (subNetflix.filter fun t => t.vendor == v'))
      ["Netflix"] = .ok [some subNetflixAlert] := by
    unfold exMapM
    rw [show subNetflix.filter (fun t => t.vendor == "Netflix") = subNetflix from by decide,
      hcheck]
    rfl
  rw [hex]
  rfl

/-- **C7 witness.** The spec's scenario: three Netflix transactions of
amount 1200 spaced 30 and 31 days trigger the rule with all three
transaction ids attached. -/
theorem c7_witness :
    ∃ a ∈ [subNetflixAlert],
      a.transaction_ids = (subNetflix.filter fun t => t.vendor == "Netflix").map (·.id) :=
  (c7_subscription_iff subNetflix "Netflix" [subNetflixAlert]
    (by decide) subNetflix_detect).mpr
    (by rw [show subNetflix.filter (fun t => t.vendor == "Netflix") = subNetflix from by decide]
        exact subNetflix_cond)
